import Mathlib

/-!
# Omega: tree references (poincare) and the memoizing model store (apps/shared)

A shallow embedding of

* `poincare/include/poincare/tree_reference.h` (class `TreeReference`), and
* `apps/shared/storage_expression_model_store.cpp` (class `StorageExpressionModelStore`),

followed by the properties established about them.

Conventions of the embedding.

* The process-wide pool (`TreePool::sharedPool()`) is an explicit value that is passed to, and
  returned from, every operation that touches it.
* C++ `int` is embedded as `Int`.  Signed overflow is undefined behaviour in C++ and is not
  part of the embedding: every arithmetic expression below is the mathematical one.
* A call that stops at an `assert` or dereferences a null `TreeNode *` returns `Except.error`.
* Arguments taken by value are the callee's objects; the copies made to pass them are not
  represented.
-/

/-- Reasons for which a member function stops without producing its result. -/
inductive Failure where
  /-- An `assert(...)` whose condition evaluated to false. -/
  | assertion
  /-- A member call through a `TreeNode *` that is null. -/
  | nullDereference
  /-- The iteration budget given to a `while` loop of the embedding is used up. -/
  | outOfFuel
  deriving DecidableEq, Repr

namespace Poincare

/-- Modelled from the spec: the node record of `tree_node.h`, which is not among the sources.
Spec section 3 lists its attributes: identifier, type tag (of which only the allocation-failure
discriminant is observed by `TreeReference`), children count and retain count. -/
structure TreeNode where
  identifier : Int
  retainCount : Int
  numberOfChildren : Int
  isAllocationFailure : Bool
  deriving DecidableEq, Repr

/-- Modelled from the spec: `TreeNode::retain()`, defined outside the sources.  An ownership
unit is one increment of the node's retain count (spec glossary). -/
def TreeNode.retain (n : TreeNode) : TreeNode :=
  { n with retainCount := n.retainCount + 1 }

/-- Modelled from the spec: the part of `TreePool` (`tree_pool.h`, not among the sources) that
`TreeReference` uses: the constant `TreePool::NoNodeIdentifier` and the identifier table
`TreePool::node(int)`, which resolves an identifier to a live node or to null. -/
structure TreePool where
  NoNodeIdentifier : Int
  node : Int → Option TreeNode

/-- The pool after the node resolved for `id` has been overwritten in place by `n`. -/
def TreePool.setNode (pool : TreePool) (id : Int) (n : TreeNode) : TreePool :=
  { pool with node := fun j => if j = id then some n else pool.node j }

/-- The read-only traversal queries of `TreeNode` that `TreeReference` forwards to.  Their
bodies are outside the sources; they are taken as an interface.  A `TreeNode *` argument or
result is an `Option TreeNode` (`none` is `nullptr`). -/
structure TreeNodeQueries where
  numberOfDescendants : TreePool → TreeNode → Bool → Int
  hasChild : TreePool → TreeNode → Option TreeNode → Bool
  hasSibling : TreePool → TreeNode → Option TreeNode → Bool
  hasAncestor : TreePool → TreeNode → Option TreeNode → Bool → Bool
  parent : TreePool → TreeNode → Option TreeNode
  childAtIndex : TreePool → TreeNode → Int → Option TreeNode
  indexOfChild : TreePool → TreeNode → Option TreeNode → Int

/-- Class `TreeReference`: its only data member is `int m_identifier`. -/
structure TreeReference where
  m_identifier : Int
  deriving DecidableEq, Repr

namespace TreeReference

/-- tree_reference.h:30, `int identifier() const`. -/
def identifier (r : TreeReference) : Int := r.m_identifier

/-- tree_reference.h:31, `node()`: `TreePool::sharedPool()->node(m_identifier)`. -/
def node (pool : TreePool) (r : TreeReference) : Option TreeNode :=
  pool.node r.m_identifier

/-- tree_reference.h:33,
`isDefined()`: `m_identifier != TreePool::NoNodeIdentifier && node() != nullptr`. -/
def isDefined (pool : TreePool) (r : TreeReference) : Bool :=
  decide (r.m_identifier ≠ pool.NoNodeIdentifier) && (r.node pool).isSome

/-- tree_reference.h:34,
`isAllocationFailure()`: `isDefined() && node()->isAllocationFailure()`.  The right operand
is evaluated only when `isDefined()` holds. -/
def isAllocationFailure (pool : TreePool) (r : TreeReference) : Bool :=
  if r.isDefined pool then
    match r.node pool with
    | some n => n.isAllocationFailure
    | none => false
  else false

/-- The common opening of every navigation method: `assert(isDefined());` followed by the
evaluation of `node()` for a member call through it. -/
def assertedNode (pool : TreePool) (r : TreeReference) : Except Failure TreeNode :=
  if r.isDefined pool then
    match r.node pool with
    | some n => .ok n
    | none => .error .nullDereference
  else .error .assertion

/-- tree_reference.h:36-39. -/
def nodeRetainCount (pool : TreePool) (r : TreeReference) : Except Failure Int := do
  let n ← r.assertedNode pool
  pure n.retainCount

/-- tree_reference.h:48-51. -/
def numberOfDescendants (q : TreeNodeQueries) (pool : TreePool) (r : TreeReference)
    (includeSelf : Bool) : Except Failure Int := do
  let n ← r.assertedNode pool
  pure (q.numberOfDescendants pool n includeSelf)

/-- tree_reference.h:54-57. -/
def hasChild (q : TreeNodeQueries) (pool : TreePool) (r t : TreeReference) :
    Except Failure Bool := do
  let n ← r.assertedNode pool
  pure (q.hasChild pool n (t.node pool))

/-- tree_reference.h:58-61. -/
def hasSibling (q : TreeNodeQueries) (pool : TreePool) (r t : TreeReference) :
    Except Failure Bool := do
  let n ← r.assertedNode pool
  pure (q.hasSibling pool n (t.node pool))

/-- tree_reference.h:62-65. -/
def hasAncestor (q : TreeNodeQueries) (pool : TreePool) (r t : TreeReference)
    (includeSelf : Bool) : Except Failure Bool := do
  let n ← r.assertedNode pool
  pure (q.hasAncestor pool n (t.node pool) includeSelf)

/-- tree_reference.h:66-69. -/
def numberOfChildren (pool : TreePool) (r : TreeReference) : Except Failure Int := do
  let n ← r.assertedNode pool
  pure n.numberOfChildren

/-- tree_reference.h:108-111, `setIdentifierAndRetain(newId)`: `m_identifier = newId;` then
`node()->retain();`, which updates the resolved node in place.  The call through `node()` is
a null dereference when the pool does not resolve `newId`. -/
def setIdentifierAndRetain (pool : TreePool) (newId : Int) :
    Except Failure (TreeReference × TreePool) :=
  let r : TreeReference := ⟨newId⟩
  match r.node pool with
  | some n => .ok (r, pool.setNode newId n.retain)
  | none => .error .nullDereference

/-- tree_reference.h:98-104, the constructor `TreeReference(const TreeNode * node)`. -/
def fromNode (pool : TreePool) (node : Option TreeNode) :
    Except Failure (TreeReference × TreePool) :=
  match node with
  | none => .ok (⟨pool.NoNodeIdentifier⟩, pool)
  | some n => setIdentifierAndRetain pool n.identifier

/-- tree_reference.h:70-73. -/
def parent (q : TreeNodeQueries) (pool : TreePool) (r : TreeReference) :
    Except Failure (TreeReference × TreePool) := do
  let n ← r.assertedNode pool
  fromNode pool (q.parent pool n)

/-- tree_reference.h:74-77. -/
def treeChildAtIndex (q : TreeNodeQueries) (pool : TreePool) (r : TreeReference) (i : Int) :
    Except Failure (TreeReference × TreePool) := do
  let n ← r.assertedNode pool
  fromNode pool (q.childAtIndex pool n i)

/-- tree_reference.h:78-81. -/
def indexOfChild (q : TreeNodeQueries) (pool : TreePool) (r t : TreeReference) :
    Except Failure Int := do
  let n ← r.assertedNode pool
  pure (q.indexOfChild pool n (t.node pool))

/-- tree_reference.h:91-95, `replaceTreeChildAtIndex(oldChildIndex, newChild)`.
`replaceTreeChild` (declared at line 90, defined outside the sources) and the destructor
(declared at line 28), which runs on the local `oldChild` when the body is left, are taken
as parameters.  The `&&` of the assertion calls `numberOfChildren()` only when
`oldChildIndex >= 0`. -/
def replaceTreeChildAtIndex (q : TreeNodeQueries)
    (replaceTreeChild :
      TreePool → TreeReference → TreeReference → TreeReference → Except Failure TreePool)
    (destroy : TreePool → TreeReference → TreePool)
    (pool : TreePool) (r : TreeReference) (oldChildIndex : Int) (newChild : TreeReference) :
    Except Failure TreePool :=
  if oldChildIndex ≥ 0 then do
    let n ← r.numberOfChildren pool
    if oldChildIndex < n then do
      let (oldChild, pool1) ← r.treeChildAtIndex q pool oldChildIndex
      let pool2 ← replaceTreeChild pool1 r oldChild newChild
      pure (destroy pool2 oldChild)
    else .error .assertion
  else .error .assertion

/-- The call `replaceTreeChild(treeChildAtIndex(i), newChild)` written out, the form that
`replaceTreeChildAtIndex` is compared with: the reference to the child at position `i` is
built, handed to `replaceTreeChild` together with `newChild`, and destroyed once the call is
over. -/
def replaceTreeChildOfChildAtIndex (q : TreeNodeQueries)
    (replaceTreeChild :
      TreePool → TreeReference → TreeReference → TreeReference → Except Failure TreePool)
    (destroy : TreePool → TreeReference → TreePool)
    (pool : TreePool) (r : TreeReference) (i : Int) (newChild : TreeReference) :
    Except Failure TreePool :=
  match r.treeChildAtIndex q pool i with
  | .ok (child, pool1) =>
    match replaceTreeChild pool1 r child newChild with
    | .ok pool2 => .ok (destroy pool2 child)
    | .error e => .error e
  | .error e => .error e

/-- Modelled from the spec: `TreeReference::setTo(const TreeReference &)`, declared at
tree_reference.h:112 and defined outside the sources.  Spec section 3: copy construction and
copy assignment increment the retained node's ownership unit; section 4.3: a reassigned
reference gives up (decrements) the unit it held.  The receiver takes the identifier of `tr`
and retains its node when `tr` is defined, and becomes undefined otherwise; the unit held
before, if any, is given up through `destroy`, the effect of the destructor. -/
def setTo (destroy : TreePool → TreeReference → TreePool) (pool : TreePool)
    (self tr : TreeReference) : Except Failure (TreeReference × TreePool) := do
  let (self1, pool1) ←
    if tr.isDefined pool then setIdentifierAndRetain pool tr.identifier
    else pure (⟨pool.NoNodeIdentifier⟩, pool)
  if self.isDefined pool then pure (self1, destroy pool1 self)
  else pure (self1, pool1)

/-- tree_reference.h:14, the copy constructor:
`m_identifier(TreePool::NoNodeIdentifier)` then `setTo(tr)`. -/
def copyConstruct (destroy : TreePool → TreeReference → TreePool) (pool : TreePool)
    (tr : TreeReference) : Except Failure (TreeReference × TreePool) :=
  setTo destroy pool ⟨pool.NoNodeIdentifier⟩ tr

/-- tree_reference.h:15, the move constructor:
`m_identifier(TreePool::NoNodeIdentifier)` then `setTo(tr)`.  Inside the body `tr` is an
lvalue, so the call is to the same `setTo(const TreeReference &)`; `tr` is not modified. -/
def moveConstruct (destroy : TreePool → TreeReference → TreePool) (pool : TreePool)
    (tr : TreeReference) : Except Failure (TreeReference × TreePool) :=
  setTo destroy pool ⟨pool.NoNodeIdentifier⟩ tr

/-- tree_reference.h:16-19, copy assignment: `setTo(tr); return *this;`. -/
def copyAssign (destroy : TreePool → TreeReference → TreePool) (pool : TreePool)
    (self tr : TreeReference) : Except Failure (TreeReference × TreePool) :=
  setTo destroy pool self tr

/-- tree_reference.h:20-23, move assignment: `setTo(tr); return *this;`. -/
def moveAssign (destroy : TreePool → TreeReference → TreePool) (pool : TreePool)
    (self tr : TreeReference) : Except Failure (TreeReference × TreePool) :=
  setTo destroy pool self tr

end TreeReference

/-- The retain count that the pool records for identifier `id`, if it resolves. -/
def TreePool.retainCountOf (pool : TreePool) (id : Int) : Option Int :=
  (pool.node id).map TreeNode.retainCount

end Poincare

namespace Shared

/-- Modelled from the spec: the record store `Ion::Storage` (not among the sources) as the
model store consults it, for the fixed extension `modelExtension()`: its checksum
(`uint32_t`), the number of records with the extension, and the record at a given position
among them.  `Record` is the type of the handles `Ion::Storage::Record`. -/
structure Storage (Record : Type) where
  checksum : Nat
  numberOfRecordsWithExtension : Int
  recordWithExtensionAtIndex : Int → Record

/-- A memoized `StorageExpressionModel` (class not among the sources): the model of a
record. -/
structure StorageExpressionModel (Record : Type) where
  record : Record
  deriving DecidableEq, Repr

/-- What the store uses of `Ion::Storage::Record` and `StorageExpressionModel`, both defined
outside the sources: the default-constructed record (`Ion::Storage::Record emptyRecord;`) and
the model predicates `isNull()` and `isDefined()`. -/
structure ModelInterface (Record : Type) where
  emptyRecord : Record
  isNull : StorageExpressionModel Record → Bool
  isDefined : StorageExpressionModel Record → Bool

/-- Class `StorageExpressionModelStore`: the members `m_firstMemoizedModelIndex` and
`m_storageChecksum`, and the slots behind the pure virtual `memoizedModelAtIndex(int)`, read
by cache index. -/
structure StorageExpressionModelStore (Record : Type) where
  m_firstMemoizedModelIndex : Int
  m_storageChecksum : Nat
  memoizedModelAtIndex : Int → StorageExpressionModel Record

namespace StorageExpressionModelStore

variable {Record : Type}

/-- Modelled from the spec: the pure virtual `setMemoizedModelAtIndex(k, r)`, implemented
outside the sources: it sets slot `k` to the model of record `r`. -/
def setMemoizedModelAtIndex (st : StorageExpressionModelStore Record) (cacheIndex : Int)
    (r : Record) : StorageExpressionModelStore Record :=
  { st with memoizedModelAtIndex :=
      fun j => if j = cacheIndex then ⟨r⟩ else st.memoizedModelAtIndex j }

/-- Modelled from the spec: the pure virtual `moveMemoizedModel(dst, src)`, implemented
outside the sources: it copies slot `src` into slot `dst`. -/
def moveMemoizedModel (st : StorageExpressionModelStore Record) (dst src : Int) :
    StorageExpressionModelStore Record :=
  { st with memoizedModelAtIndex :=
      fun j => if j = dst then st.memoizedModelAtIndex src else st.memoizedModelAtIndex j }

/-- storage_expression_model_store.cpp:5-8, the constructor.  It initialises only
`m_firstMemoizedModelIndex`; the value of `m_storageChecksum` and the slots, which belong to
the subclass, are whatever they are at that point. -/
def construct (storageChecksum : Nat) (slots : Int → StorageExpressionModel Record) :
    StorageExpressionModelStore Record :=
  { m_firstMemoizedModelIndex := 0
    m_storageChecksum := storageChecksum
    memoizedModelAtIndex := slots }

/-- storage_expression_model_store.cpp:35-42, the body of the translation loop, for the
value `i` of its loop variable. -/
def translateBody (ops : ModelInterface Record) (k deltaIndex : Int)
    (st : StorageExpressionModelStore Record) (i : Int) : StorageExpressionModelStore Record :=
  let j := deltaIndex + i
  if j ≥ 0 ∧ j < k then st.moveMemoizedModel i j
  else st.setMemoizedModelAtIndex i ops.emptyRecord

/-- storage_expression_model_store.cpp:34-43, the loop
`for (int i = 0; i < k_maxNumberOfMemoizedModels-1; i++)`, run in order on the slots. -/
def translateLoop (ops : ModelInterface Record) (k deltaIndex : Int)
    (st : StorageExpressionModelStore Record) : StorageExpressionModelStore Record :=
  (List.range (k - 1).toNat).foldl
    (fun s (n : Nat) => translateBody ops k deltaIndex s (n : Int)) st

/-- storage_expression_model_store.cpp:31-45, the translation step of `modelAtIndex(i)`;
`k` is the constant `k_maxNumberOfMemoizedModels` of the header, which is not among the
sources. -/
def translate (ops : ModelInterface Record) (k : Int)
    (st : StorageExpressionModelStore Record) (i : Int) : StorageExpressionModelStore Record :=
  if i ≥ st.m_firstMemoizedModelIndex + k ∨ i < st.m_firstMemoizedModelIndex then
    let deltaIndex :=
      if i ≥ st.m_firstMemoizedModelIndex + k then i - k + 1 - st.m_firstMemoizedModelIndex
      else i - st.m_firstMemoizedModelIndex
    let st1 := translateLoop ops k deltaIndex st
    { st1 with m_firstMemoizedModelIndex := st1.m_firstMemoizedModelIndex + deltaIndex }
  else st

/-- storage_expression_model_store.cpp:47-57 of `modelAtIndex(i)`: the checksum test, the
rebuild of the slot of `i`, and the slot that is returned. -/
def fetch (ops : ModelInterface Record) (sto : Storage Record)
    (st : StorageExpressionModelStore Record) (i : Int) :
    StorageExpressionModel Record × StorageExpressionModelStore Record :=
  let currentStorageChecksum := sto.checksum
  let st1 :=
    if ops.isNull (st.memoizedModelAtIndex (i - st.m_firstMemoizedModelIndex))
        || currentStorageChecksum != st.m_storageChecksum then
      let record := sto.recordWithExtensionAtIndex i
      { st.setMemoizedModelAtIndex (i - st.m_firstMemoizedModelIndex) record with
        m_storageChecksum := currentStorageChecksum }
    else st
  (st1.memoizedModelAtIndex (i - st1.m_firstMemoizedModelIndex), st1)

/-- storage_expression_model_store.cpp:27-58, `modelAtIndex(i)`.  The method is `const` but
writes the mutable cache, so the store is returned next to the model.  The returned pointer
is represented by the content of the slot it points to. -/
def modelAtIndex (ops : ModelInterface Record) (k : Int) (sto : Storage Record)
    (st : StorageExpressionModelStore Record) (i : Int) :
    Except Failure (StorageExpressionModel Record × StorageExpressionModelStore Record) :=
  let st1 := translate ops k st i
  if i - st1.m_firstMemoizedModelIndex < k then .ok (fetch ops sto st1 i)
  else .error .assertion

/-- storage_expression_model_store.cpp:10-12, `numberOfModels()`:
`Ion::Storage::sharedStorage()->numberOfRecordsWithExtension(modelExtension())`. -/
def numberOfModels (sto : Storage Record) : Int :=
  sto.numberOfRecordsWithExtension

/-- storage_expression_model_store.cpp:18-23, the `while` loop of `numberOfDefinedModels()`,
entered at its test with the current values of `m`, `i` and `result`. -/
def numberOfDefinedModelsLoop (ops : ModelInterface Record) (k : Int) (sto : Storage Record) :
    Nat → StorageExpressionModel Record → Int → Int → StorageExpressionModelStore Record →
    Except Failure (Int × StorageExpressionModelStore Record)
  | 0, _, _, _, _ => .error .outOfFuel
  | fuel + 1, m, i, result, st =>
    if ops.isNull m then .ok (result, st)
    else do
      let result1 := if ops.isDefined m then result + 1 else result
      let (m1, st1) ← modelAtIndex ops k sto st i
      numberOfDefinedModelsLoop ops k sto fuel m1 (i + 1) result1 st1

/-- storage_expression_model_store.cpp:14-25, `numberOfDefinedModels()`; `fuel` bounds the
number of evaluations of the loop test. -/
def numberOfDefinedModels (ops : ModelInterface Record) (k : Int) (sto : Storage Record)
    (fuel : Nat) (st : StorageExpressionModelStore Record) :
    Except Failure (Int × StorageExpressionModelStore Record) := do
  let (m, st1) ← modelAtIndex ops k sto st 0
  numberOfDefinedModelsLoop ops k sto fuel m 1 0 st1

/-- storage_expression_model_store.cpp:65-74, the `while` loop of `definedModelAtIndex(i)`,
entered at its test; leaving the loop reaches `assert(false)`. -/
def definedModelAtIndexLoop (ops : ModelInterface Record) (k : Int) (sto : Storage Record)
    (i : Int) :
    Nat → StorageExpressionModel Record → Int → Int → StorageExpressionModelStore Record →
    Except Failure (StorageExpressionModel Record × StorageExpressionModelStore Record)
  | 0, _, _, _, _ => .error .outOfFuel
  | fuel + 1, m, currentModelIndex, index, st =>
    if ops.isNull m then .error .assertion
    else if currentModelIndex ≤ numberOfModels sto then
      if ops.isDefined m then
        if i = index then .ok (m, st)
        else do
          let (m1, st1) ← modelAtIndex ops k sto st currentModelIndex
          definedModelAtIndexLoop ops k sto i fuel m1 (currentModelIndex + 1) (index + 1) st1
      else do
        let (m1, st1) ← modelAtIndex ops k sto st currentModelIndex
        definedModelAtIndexLoop ops k sto i fuel m1 (currentModelIndex + 1) index st1
    else .error .assertion

/-- storage_expression_model_store.cpp:60-77, `definedModelAtIndex(i)`.  The opening
assertion calls `numberOfDefinedModels()` (only when `i >= 0`), which goes through the cache
before the loop starts. -/
def definedModelAtIndex (ops : ModelInterface Record) (k : Int) (sto : Storage Record)
    (fuel : Nat) (st : StorageExpressionModelStore Record) (i : Int) :
    Except Failure (StorageExpressionModel Record × StorageExpressionModelStore Record) :=
  if i ≥ 0 then do
    let (n, st0) ← numberOfDefinedModels ops k sto fuel st
    if i < n then do
      let (m, st1) ← modelAtIndex ops k sto st0 0
      definedModelAtIndexLoop ops k sto i fuel m 1 0 st1
    else .error .assertion
  else .error .assertion

/-- The successive calls `modelAtIndex(0)`, ..., `modelAtIndex(j)` made by a scan of the
store: the model returned by the last call and the store it leaves. -/
def scan (ops : ModelInterface Record) (k : Int) (sto : Storage Record)
    (st : StorageExpressionModelStore Record) :
    Nat → Except Failure (StorageExpressionModel Record × StorageExpressionModelStore Record)
  | 0 => modelAtIndex ops k sto st 0
  | j + 1 => do
    let (_, s) ← scan ops k sto st j
    modelAtIndex ops k sto s ((j : Int) + 1)

/-- The scan `modelAtIndex(0)`, ..., `modelAtIndex(j)` with the assertion of `modelAtIndex`
taken as passed, which it always is when there is at least one slot. -/
def run (ops : ModelInterface Record) (k : Int) (sto : Storage Record)
    (st : StorageExpressionModelStore Record) :
    Nat → StorageExpressionModel Record × StorageExpressionModelStore Record
  | 0 => fetch ops sto (translate ops k st 0) 0
  | j + 1 => fetch ops sto (translate ops k (run ops k sto st j).2 ((j : Int) + 1)) ((j : Int) + 1)

end StorageExpressionModelStore

end Shared

/-! ## Concrete instances -/

namespace Poincare.Example

/-- A pool with three live nodes: node 0 with the two children 1 and 2, the latter being an
allocation-failure node; every other identifier is unused, and 7 is a stale identifier. -/
def pool : TreePool where
  NoNodeIdentifier := -1
  node := fun id =>
    if id = 0 then some ⟨0, 1, 2, false⟩
    else if id = 1 then some ⟨1, 1, 0, false⟩
    else if id = 2 then some ⟨2, 1, 0, true⟩
    else none

/-- Traversal queries for the tree of `pool`. -/
def queries : TreeNodeQueries where
  numberOfDescendants := fun _ n includeSelf =>
    (if n.identifier = 0 then 2 else 0) + (if includeSelf then 1 else 0)
  hasChild := fun _ n t =>
    match t with
    | some c => n.identifier = 0 && (c.identifier = 1 || c.identifier = 2)
    | none => false
  hasSibling := fun _ n t =>
    match t with
    | some c => (n.identifier = 1 || n.identifier = 2) && (c.identifier = 1 || c.identifier = 2)
    | none => false
  hasAncestor := fun _ n t includeSelf =>
    match t with
    | some a =>
      (includeSelf && n.identifier = a.identifier)
        || (a.identifier = 0 && (n.identifier = 1 || n.identifier = 2))
    | none => false
  parent := fun p n => if n.identifier = 1 ∨ n.identifier = 2 then p.node 0 else none
  childAtIndex := fun p n i =>
    if n.identifier = 0 then (if i = 0 then p.node 1 else if i = 1 then p.node 2 else none)
    else none
  indexOfChild := fun _ n t =>
    match t with
    | some c => if n.identifier = 0 ∧ c.identifier = 2 then 1 else if n.identifier = 0 ∧ c.identifier = 1 then 0 else -1
    | none => -1

/-- Modelled from the spec: the destructor of `TreeReference` (declared at
tree_reference.h:28, defined outside the sources): destruction decrements the ownership unit
of the retained node, and a node whose count reaches zero stops being live.  The release of
the children of a destroyed node is not represented. -/
def releaseUnit (p : TreePool) (r : TreeReference) : TreePool :=
  if r.isDefined p then
    match r.node p with
    | some n =>
      if n.retainCount ≤ 1 then
        { p with node := fun j => if j = r.m_identifier then none else p.node j }
      else p.setNode r.m_identifier { n with retainCount := n.retainCount - 1 }
    | none => p
  else p

/-- A stand-in for `replaceTreeChild` (defined outside the sources) that records the call:
the receiver's node takes the identifier of the old child as its children count and the new
child's node is retained; it fails on an undefined old child. -/
def recordingReplaceTreeChild (p : TreePool) (r oldChild newChild : TreeReference) :
    Except Failure TreePool :=
  match r.node p, oldChild.node p, newChild.node p with
  | some n, some _, some c =>
    .ok ((p.setNode r.m_identifier { n with numberOfChildren := oldChild.m_identifier }).setNode
      newChild.m_identifier c.retain)
  | _, _, _ => .error .assertion

end Poincare.Example

namespace Shared

/-- The number of indices `j < c` whose model `M j` is defined. -/
def definedBelow {Record : Type} (ops : ModelInterface Record)
    (M : Nat → StorageExpressionModel Record) (c : Nat) : Int :=
  (((List.range c).filter (fun j => ops.isDefined (M j))).length : Int)

end Shared

namespace Shared.Example

/-- Records are numbered handles; `none` is the null record.  A model is null when its record
is, and defined when its record carries an even number. -/
def ops : ModelInterface (Option Nat) where
  emptyRecord := none
  isNull := fun m => m.record.isNone
  isDefined := fun m =>
    match m.record with
    | some v => v % 2 = 0
    | none => false

/-- A storage with checksum `c` holding `count` records of the extension; the record at
position `i` is the handle `base + i`. -/
def storage (c count base : Nat) : Storage (Option Nat) where
  checksum := c
  numberOfRecordsWithExtension := count
  recordWithExtensionAtIndex := fun i =>
    if 0 ≤ i ∧ i < (count : Int) then some (base + i.toNat) else none

/-- A store right after construction, all slots holding the model of the empty record. -/
def freshStore : StorageExpressionModelStore (Option Nat) :=
  StorageExpressionModelStore.construct 0 (fun _ => ⟨none⟩)

/-- The storage before a change: checksum 1, three records with handles 0, 1, 2. -/
def storageBefore : Storage (Option Nat) := storage 1 3 0

/-- The storage after a change: checksum 2, three records with handles 100, 101, 102. -/
def storageAfter : Storage (Option Nat) := storage 2 3 100

/-- A storage with twelve records, more than the ten slots used in the examples. -/
def storageTwelve : Storage (Option Nat) := storage 1 12 0

/-- The store reached from the fresh one by `modelAtIndex(0)` and `modelAtIndex(1)` on
`storageBefore`, with ten slots. -/
def memoizedStore : StorageExpressionModelStore (Option Nat) :=
  match StorageExpressionModelStore.scan ops 10 storageBefore freshStore 1 with
  | .ok (_, s) => s
  | .error _ => freshStore

/-- The store reached from the fresh one by `modelAtIndex(0)`, ..., `modelAtIndex(8)` on
`storageTwelve`, with ten slots. -/
def filledStore : StorageExpressionModelStore (Option Nat) :=
  match StorageExpressionModelStore.scan ops 10 storageTwelve freshStore 8 with
  | .ok (_, s) => s
  | .error _ => freshStore

/-- A storage with checksum `c` holding `count` records of the extension, all of them
defined: the record at position `i` is the handle `2 * i`. -/
def evenStorage (c count : Nat) : Storage (Option Nat) where
  checksum := c
  numberOfRecordsWithExtension := count
  recordWithExtensionAtIndex := fun i =>
    if 0 ≤ i ∧ i < (count : Int) then some (2 * i.toNat) else none

/-- A storage with two defined records, handles 0 and 2, and checksum 1. -/
def storageTwoDefined : Storage (Option Nat) := evenStorage 1 2

/-- The storage `storageTwoDefined` after the removal of its second record: one record,
handle 0, and another checksum. -/
def storageOneDefined : Storage (Option Nat) := evenStorage 2 1

/-- The store left by `numberOfDefinedModels()` called on the fresh store while the storage
is `storageTwoDefined`, with ten slots. -/
def storeAfterCount : StorageExpressionModelStore (Option Nat) :=
  match StorageExpressionModelStore.numberOfDefinedModels ops 10 storageTwoDefined 3
      freshStore with
  | .ok (_, s) => s
  | .error _ => freshStore

/-- The models of the three records of `storageBefore`, followed by null models. -/
def modelsBefore (j : Nat) : StorageExpressionModel (Option Nat) :=
  ⟨storageBefore.recordWithExtensionAtIndex (j : Int)⟩

end Shared.Example

/-! ## Properties of `TreeReference` -/

namespace Poincare

open TreeReference

theorem assertedNode_of_undefined (pool : TreePool) (r : TreeReference)
    (h : r.isDefined pool = false) : r.assertedNode pool = .error .assertion := by
  simp [assertedNode, h]

theorem assertedNode_of_defined (pool : TreePool) (r : TreeReference) (n : TreeNode)
    (h : r.isDefined pool = true) (hn : r.node pool = some n) :
    r.assertedNode pool = .ok n := by
  simp [assertedNode, h, hn]

theorem node_isSome_of_defined (pool : TreePool) (r : TreeReference)
    (h : r.isDefined pool = true) : ∃ n, r.node pool = some n := by
  simp only [isDefined, Bool.and_eq_true] at h
  exact Option.isSome_iff_exists.mp h.2

theorem setNode_node_self (pool : TreePool) (id : Int) (n : TreeNode) :
    (pool.setNode id n).node id = some n := by
  simp [TreePool.setNode]

theorem setNode_node_other (pool : TreePool) (id j : Int) (n : TreeNode) (h : j ≠ id) :
    (pool.setNode id n).node j = pool.node j := by
  simp [TreePool.setNode, h]

theorem fromNode_some (pool : TreePool) (n m : TreeNode)
    (h : pool.node n.identifier = some m) :
    fromNode pool (some n) = .ok (⟨n.identifier⟩, pool.setNode n.identifier m.retain) := by
  simp [fromNode, setIdentifierAndRetain, TreeReference.node, h]

/-- C1. `isDefined()` holds exactly when the identifier differs from
`TreePool::NoNodeIdentifier` and the pool resolves it to a node; in particular a reference
whose identifier does not resolve any more (a stale one) is not defined. -/
theorem isDefined_iff_identifier_resolves (pool : TreePool) (r : TreeReference) :
    (r.isDefined pool = true ↔
      (r.identifier ≠ pool.NoNodeIdentifier ∧ r.node pool ≠ none)) ∧
    (r.node pool = none → r.isDefined pool = false) := by
  constructor
  · simp [isDefined, identifier, Option.isSome_iff_ne_none]
  · intro h
    simp [isDefined, h]

/-- Witness for C1 at the stale identifier 7 of the example pool. -/
theorem isDefined_iff_identifier_resolves_witness :
    (⟨7⟩ : TreeReference).node Example.pool = none ∧
    (⟨7⟩ : TreeReference).isDefined Example.pool = false :=
  ⟨by decide, (isDefined_iff_identifier_resolves Example.pool ⟨7⟩).2 (by decide)⟩

/-- C5. `isAllocationFailure()` implies `isDefined()`; it holds exactly when the reference
is defined and the node it resolves to is an allocation-failure node.  Hence an undefined
or stale reference is never an allocation failure, and a reference to the sentinel is at
once defined and an allocation failure. -/
theorem isAllocationFailure_iff_defined_sentinel (pool : TreePool) (r : TreeReference) :
    (r.isAllocationFailure pool = true → r.isDefined pool = true) ∧
    (r.isAllocationFailure pool = true ↔
      (r.isDefined pool = true ∧ ∃ n, r.node pool = some n ∧ n.isAllocationFailure = true)) ∧
    (r.isDefined pool = false → r.isAllocationFailure pool = false) ∧
    (r.node pool = none → r.isAllocationFailure pool = false) ∧
    (∀ n, r.identifier ≠ pool.NoNodeIdentifier → r.node pool = some n →
      n.isAllocationFailure = true →
      r.isDefined pool = true ∧ r.isAllocationFailure pool = true) := by
  refine ⟨?_, ?_, ?_, ?_, ?_⟩
  · intro h
    by_cases hd : r.isDefined pool = true
    · exact hd
    · simp [isAllocationFailure, hd] at h
  · constructor
    · intro h
      by_cases hd : r.isDefined pool = true
      · obtain ⟨n, hn⟩ := node_isSome_of_defined pool r hd
        simp [isAllocationFailure, hd, hn] at h
        exact ⟨hd, n, hn, h⟩
      · simp [isAllocationFailure, hd] at h
    · rintro ⟨hd, n, hn, ha⟩
      simp [isAllocationFailure, hd, hn, ha]
  · intro hd
    simp [isAllocationFailure, hd]
  · intro hn
    simp [isAllocationFailure, isDefined, hn]
  · intro n hid hn ha
    have hd : r.isDefined pool = true := by
      simp [isDefined, hn]
      exact hid
    exact ⟨hd, by simp [isAllocationFailure, hd, hn, ha]⟩

/-- Witness for C5: in the example pool the reference to the sentinel node 2 is defined and
an allocation failure, and the stale reference 7 is not an allocation failure. -/
theorem isAllocationFailure_iff_defined_sentinel_witness :
    ((⟨2⟩ : TreeReference).isDefined Example.pool = true ∧
      (⟨2⟩ : TreeReference).isAllocationFailure Example.pool = true) ∧
    (⟨7⟩ : TreeReference).isAllocationFailure Example.pool = false :=
  ⟨(isAllocationFailure_iff_defined_sentinel Example.pool ⟨2⟩).2.2.2.2 ⟨2, 1, 0, true⟩
      (by decide) (by decide) rfl,
    (isAllocationFailure_iff_defined_sentinel Example.pool ⟨7⟩).2.2.2.1 (by decide)⟩

/-- C10. The constructor from a node pointer creates one ownership unit or none.  From a null
pointer the reference holds `NoNodeIdentifier`, is not defined, and the pool is unchanged.
From a node `n` whose identifier the pool resolves (to `m`) the reference holds
`n->identifier()`, the retain count recorded for that identifier grows by exactly one and no
other identifier is affected.  Consequently `parent()` of a node without parent is an
undefined reference (pool unchanged), and `treeChildAtIndex(i)` carries the identifier of the
child at `i`, whose retain count grows by one. -/
theorem fromNode_creates_one_unit_or_none (q : TreeNodeQueries) (pool : TreePool) :
    (∃ u, fromNode pool none = .ok (u, pool) ∧ u.identifier = pool.NoNodeIdentifier ∧
      u.isDefined pool = false) ∧
    (∀ n m : TreeNode, pool.node n.identifier = some m →
      ∃ u pool1, fromNode pool (some n) = .ok (u, pool1) ∧ u.identifier = n.identifier ∧
        pool1.retainCountOf n.identifier = some (m.retainCount + 1) ∧
        pool.retainCountOf n.identifier = some m.retainCount ∧
        (∀ j, j ≠ n.identifier → pool1.node j = pool.node j) ∧
        pool1.NoNodeIdentifier = pool.NoNodeIdentifier) ∧
    (∀ (r : TreeReference) (n : TreeNode), r.isDefined pool = true → r.node pool = some n →
      q.parent pool n = none →
      ∃ u, r.parent q pool = .ok (u, pool) ∧ u.isDefined pool = false) ∧
    (∀ (r : TreeReference) (n c m : TreeNode) (i : Int), r.isDefined pool = true →
      r.node pool = some n → q.childAtIndex pool n i = some c →
      pool.node c.identifier = some m →
      ∃ u pool1, r.treeChildAtIndex q pool i = .ok (u, pool1) ∧
        u.identifier = c.identifier ∧
        pool1.retainCountOf c.identifier = some (m.retainCount + 1) ∧
        pool.retainCountOf c.identifier = some m.retainCount ∧
        (∀ j, j ≠ c.identifier → pool1.node j = pool.node j)) := by
  have key : ∀ n m : TreeNode, pool.node n.identifier = some m →
      ∃ u pool1, fromNode pool (some n) = .ok (u, pool1) ∧ u.identifier = n.identifier ∧
        pool1.retainCountOf n.identifier = some (m.retainCount + 1) ∧
        pool.retainCountOf n.identifier = some m.retainCount ∧
        (∀ j, j ≠ n.identifier → pool1.node j = pool.node j) ∧
        pool1.NoNodeIdentifier = pool.NoNodeIdentifier := by
    intro n m h
    refine ⟨⟨n.identifier⟩, pool.setNode n.identifier m.retain, fromNode_some pool n m h, rfl,
      ?_, ?_, ?_, rfl⟩
    · simp [TreePool.retainCountOf, setNode_node_self, TreeNode.retain]
    · simp [TreePool.retainCountOf, h]
    · intro j hj
      exact setNode_node_other pool _ j _ hj
  refine ⟨?_, key, ?_, ?_⟩
  · exact ⟨⟨pool.NoNodeIdentifier⟩, rfl, rfl, by simp [isDefined]⟩
  · intro r n hd hn hp
    refine ⟨⟨pool.NoNodeIdentifier⟩, ?_, by simp [isDefined]⟩
    have hfwd : r.parent q pool = fromNode pool (q.parent pool n) := by
      simp only [parent, assertedNode_of_defined pool r n hd hn]
      rfl
    rw [hfwd, hp]
    rfl
  · intro r n c m i hd hn hc hm
    obtain ⟨u, pool1, h1, h2, h3, h4, h5, _⟩ := key c m hm
    refine ⟨u, pool1, ?_, h2, h3, h4, h5⟩
    have hfwd : r.treeChildAtIndex q pool i = fromNode pool (q.childAtIndex pool n i) := by
      simp only [treeChildAtIndex, assertedNode_of_defined pool r n hd hn]
      rfl
    rw [hfwd, hc]
    exact h1

/-- Witness for C10 in the example pool: `treeChildAtIndex(1)` on the reference to node 0
carries identifier 2 and raises the retain count of node 2 from 1 to 2. -/
theorem fromNode_creates_one_unit_or_none_witness :
    ∃ u pool1, (⟨0⟩ : TreeReference).treeChildAtIndex Example.queries Example.pool 1
        = .ok (u, pool1) ∧
      u.identifier = 2 ∧ pool1.retainCountOf 2 = some (1 + 1) ∧
      Example.pool.retainCountOf 2 = some 1 ∧
      (∀ j, j ≠ 2 → pool1.node j = Example.pool.node j) :=
  (fromNode_creates_one_unit_or_none Example.queries Example.pool).2.2.2 ⟨0⟩ ⟨0, 1, 2, false⟩
    ⟨2, 1, 0, true⟩ ⟨2, 1, 0, true⟩ 1 (by decide) (by decide) (by decide) (by decide)

/-- C4. Every navigation method stops at its assertion, without a value, on a receiver that
is not defined; on a defined receiver it returns the result of the corresponding query on
the node the receiver resolves to (`parent` and `treeChildAtIndex` wrap the node returned by
`parent()` and `childAtIndex(i)` in a reference built by the pointer constructor). -/
theorem navigation_asserts_defined_then_forwards (q : TreeNodeQueries) (pool : TreePool)
    (r t : TreeReference) (i : Int) (includeSelf : Bool) :
    (r.isDefined pool = false →
      r.nodeRetainCount pool = .error .assertion ∧
      r.numberOfDescendants q pool includeSelf = .error .assertion ∧
      r.hasChild q pool t = .error .assertion ∧
      r.hasSibling q pool t = .error .assertion ∧
      r.hasAncestor q pool t includeSelf = .error .assertion ∧
      r.numberOfChildren pool = .error .assertion ∧
      r.parent q pool = .error .assertion ∧
      r.treeChildAtIndex q pool i = .error .assertion ∧
      r.indexOfChild q pool t = .error .assertion) ∧
    (r.isDefined pool = true →
      ∃ n, r.node pool = some n ∧
      r.nodeRetainCount pool = .ok n.retainCount ∧
      r.numberOfDescendants q pool includeSelf = .ok (q.numberOfDescendants pool n includeSelf) ∧
      r.hasChild q pool t = .ok (q.hasChild pool n (t.node pool)) ∧
      r.hasSibling q pool t = .ok (q.hasSibling pool n (t.node pool)) ∧
      r.hasAncestor q pool t includeSelf = .ok (q.hasAncestor pool n (t.node pool) includeSelf) ∧
      r.numberOfChildren pool = .ok n.numberOfChildren ∧
      r.parent q pool = fromNode pool (q.parent pool n) ∧
      r.treeChildAtIndex q pool i = fromNode pool (q.childAtIndex pool n i) ∧
      r.indexOfChild q pool t = .ok (q.indexOfChild pool n (t.node pool))) := by
  constructor
  · intro h
    have ha := assertedNode_of_undefined pool r h
    simp only [nodeRetainCount, numberOfDescendants, hasChild, hasSibling, hasAncestor,
      numberOfChildren, parent, treeChildAtIndex, indexOfChild, ha]
    exact ⟨rfl, rfl, rfl, rfl, rfl, rfl, rfl, rfl, rfl⟩
  · intro h
    obtain ⟨n, hn⟩ := node_isSome_of_defined pool r h
    have ha := assertedNode_of_defined pool r n h hn
    refine ⟨n, hn, ?_⟩
    simp only [nodeRetainCount, numberOfDescendants, hasChild, hasSibling, hasAncestor,
      numberOfChildren, parent, treeChildAtIndex, indexOfChild, ha]
    exact ⟨rfl, rfl, rfl, rfl, rfl, rfl, rfl, rfl, rfl⟩

/-- Witness for C4 in the example pool: the stale reference 7 stops at the assertion of
`numberOfChildren()` and of `parent()`, and the reference to node 0 forwards. -/
theorem navigation_asserts_defined_then_forwards_witness :
    ((⟨7⟩ : TreeReference).numberOfChildren Example.pool = .error .assertion ∧
      (⟨7⟩ : TreeReference).parent Example.queries Example.pool = .error .assertion) ∧
    (∃ n, (⟨0⟩ : TreeReference).node Example.pool = some n ∧
      (⟨0⟩ : TreeReference).numberOfChildren Example.pool = .ok n.numberOfChildren) :=
  ⟨⟨((navigation_asserts_defined_then_forwards Example.queries Example.pool ⟨7⟩ ⟨1⟩ 0 true).1
        (by decide)).2.2.2.2.2.1,
      ((navigation_asserts_defined_then_forwards Example.queries Example.pool ⟨7⟩ ⟨1⟩ 0 true).1
        (by decide)).2.2.2.2.2.2.1⟩,
    (fun ⟨n, hn, h⟩ => ⟨n, hn, h.2.2.2.2.2.1⟩)
      ((navigation_asserts_defined_then_forwards Example.queries Example.pool ⟨0⟩ ⟨1⟩ 0 true).2
        (by decide))⟩

/-- C3. On a defined receiver with `n` children, `replaceTreeChildAtIndex(i, newChild)` stops
at its assertion whenever `i < 0` or `i >= n`; for `0 <= i < n` it is
`replaceTreeChild(treeChildAtIndex(i), newChild)`, and when the node has a (resolved) child
`c` at position `i` the old child handed to `replaceTreeChild` is the reference to `c`. -/
theorem replaceTreeChildAtIndex_bounds_checked (q : TreeNodeQueries)
    (replaceTreeChild :
      TreePool → TreeReference → TreeReference → TreeReference → Except Failure TreePool)
    (destroy : TreePool → TreeReference → TreePool)
    (pool : TreePool) (r : TreeReference) (i : Int) (newChild : TreeReference)
    (hdef : r.isDefined pool = true) :
    ∃ n, r.node pool = some n ∧ r.numberOfChildren pool = .ok n.numberOfChildren ∧
      ((i < 0 ∨ i ≥ n.numberOfChildren) →
        r.replaceTreeChildAtIndex q replaceTreeChild destroy pool i newChild
          = .error .assertion) ∧
      ((0 ≤ i ∧ i < n.numberOfChildren) →
        r.replaceTreeChildAtIndex q replaceTreeChild destroy pool i newChild
          = r.replaceTreeChildOfChildAtIndex q replaceTreeChild destroy pool i newChild ∧
        ∀ c m : TreeNode, q.childAtIndex pool n i = some c → pool.node c.identifier = some m →
          r.replaceTreeChildAtIndex q replaceTreeChild destroy pool i newChild
            = (replaceTreeChild (pool.setNode c.identifier m.retain) r ⟨c.identifier⟩
                newChild).map (fun p => destroy p ⟨c.identifier⟩)) := by
  obtain ⟨n, hn⟩ := node_isSome_of_defined pool r hdef
  have ha := assertedNode_of_defined pool r n hdef hn
  have hnum : r.numberOfChildren pool = .ok n.numberOfChildren := by
    simp only [numberOfChildren, ha]
    rfl
  have hchild : r.treeChildAtIndex q pool i = fromNode pool (q.childAtIndex pool n i) := by
    simp only [treeChildAtIndex, ha]
    rfl
  refine ⟨n, hn, hnum, ?_, ?_⟩
  · intro h
    unfold replaceTreeChildAtIndex
    rw [hnum]
    rcases h with h | h
    · rw [if_neg (by omega)]
    · by_cases h0 : i ≥ 0
      · rw [if_pos h0]
        show (if i < n.numberOfChildren then _ else _) = _
        rw [if_neg (by omega)]
      · rw [if_neg h0]
  · rintro ⟨h0, h1⟩
    have hunf : r.replaceTreeChildAtIndex q replaceTreeChild destroy pool i newChild
        = r.replaceTreeChildOfChildAtIndex q replaceTreeChild destroy pool i newChild := by
      unfold replaceTreeChildAtIndex replaceTreeChildOfChildAtIndex
      rw [hnum, if_pos (by omega)]
      show (if i < n.numberOfChildren then _ else _) = _
      rw [if_pos h1]
      cases hc : r.treeChildAtIndex q pool i with
      | error e => rfl
      | ok v =>
        obtain ⟨child, pool1⟩ := v
        show (replaceTreeChild pool1 r child newChild >>= fun pool2 =>
          pure (destroy pool2 child)) =
          (match replaceTreeChild pool1 r child newChild with
            | .ok pool2 => Except.ok (destroy pool2 child)
            | .error e => Except.error e)
        cases replaceTreeChild pool1 r child newChild <;> rfl
    refine ⟨hunf, ?_⟩
    intro c m hc hm
    rw [hunf]
    unfold replaceTreeChildOfChildAtIndex
    rw [hchild, hc, fromNode_some pool c m hm]
    show (match replaceTreeChild (pool.setNode c.identifier m.retain) r ⟨c.identifier⟩
      newChild with
      | .ok pool2 => Except.ok (destroy pool2 ⟨c.identifier⟩)
      | .error e => Except.error e) = _
    cases replaceTreeChild (pool.setNode c.identifier m.retain) r ⟨c.identifier⟩ newChild
      <;> rfl

/-- Witness for C3 on the reference to node 0 (two children) of the example pool: index 2
stops at the assertion and index 0 is the call on `treeChildAtIndex(0)`. -/
theorem replaceTreeChildAtIndex_bounds_checked_witness :
    ∃ n, (⟨0⟩ : TreeReference).node Example.pool = some n ∧
      (⟨0⟩ : TreeReference).numberOfChildren Example.pool = .ok n.numberOfChildren ∧
      (((2 : Int) < 0 ∨ (2 : Int) ≥ n.numberOfChildren) →
        (⟨0⟩ : TreeReference).replaceTreeChildAtIndex Example.queries
          Example.recordingReplaceTreeChild Example.releaseUnit Example.pool 2 ⟨1⟩
          = .error .assertion) ∧
      (⟨0⟩ : TreeReference).replaceTreeChildAtIndex Example.queries
          Example.recordingReplaceTreeChild Example.releaseUnit Example.pool 0 ⟨2⟩
        = (⟨0⟩ : TreeReference).replaceTreeChildOfChildAtIndex Example.queries
          Example.recordingReplaceTreeChild Example.releaseUnit Example.pool 0 ⟨2⟩ :=
  (fun ⟨n, hn, hnum, hout, _⟩ =>
    ⟨n, hn, hnum, hout,
      (((fun ⟨n0, hn0, _, _, hin⟩ =>
        (hin ⟨by decide, by
          have h2 : n0 = ⟨0, 1, 2, false⟩ :=
            Option.some.inj (hn0.symm.trans (by decide))
          rw [h2]; decide⟩).1)
        (replaceTreeChildAtIndex_bounds_checked Example.queries
          Example.recordingReplaceTreeChild Example.releaseUnit Example.pool ⟨0⟩ 0 ⟨2⟩
          (by decide))))⟩)
    (replaceTreeChildAtIndex_bounds_checked Example.queries Example.recordingReplaceTreeChild
      Example.releaseUnit Example.pool ⟨0⟩ 2 ⟨1⟩ (by decide))

/-- C2 fails as stated: move-constructing from the reference to node 1 of the example pool
(retain count 1) leaves the pool recording retain count 2 for it, like the copy. -/
theorem moveConstruct_retains_counterexample :
    Example.pool.retainCountOf 1 = some 1 ∧
    (moveConstruct Example.releaseUnit Example.pool ⟨1⟩).map
        (fun p => (p.1.identifier, p.2.retainCountOf 1)) = .ok (1, some 2) ∧
    (copyConstruct Example.releaseUnit Example.pool ⟨1⟩).map
        (fun p => (p.1.identifier, p.2.retainCountOf 1)) = .ok (1, some 2) :=
  ⟨by decide, by rfl, by rfl⟩

/-- C2, amended.  From a defined reference `tr` to node `n`, copy construction and copy
assignment retain `n` exactly once (its retain count grows by one; an assignment moreover
gives up, through the destructor's effect, the unit the assigned-to reference held), and the
move constructor and move assignment do exactly what the copy overloads do, on every input:
they perform the same retain and leave the source as it is. -/
theorem move_overloads_retain_like_copy (destroy : TreePool → TreeReference → TreePool)
    (pool : TreePool) (tr : TreeReference) (n : TreeNode)
    (hdef : tr.isDefined pool = true) (hn : tr.node pool = some n) :
    copyConstruct destroy pool tr
      = .ok (⟨tr.identifier⟩, pool.setNode tr.identifier n.retain) ∧
    moveConstruct destroy pool tr
      = .ok (⟨tr.identifier⟩, pool.setNode tr.identifier n.retain) ∧
    (pool.setNode tr.identifier n.retain).retainCountOf tr.identifier
      = some (n.retainCount + 1) ∧
    pool.retainCountOf tr.identifier = some n.retainCount ∧
    (∀ self : TreeReference,
      copyAssign destroy pool self tr
        = .ok (⟨tr.identifier⟩,
            if self.isDefined pool then destroy (pool.setNode tr.identifier n.retain) self
            else pool.setNode tr.identifier n.retain) ∧
      moveAssign destroy pool self tr = copyAssign destroy pool self tr) ∧
    (∀ src : TreeReference,
      moveConstruct destroy pool src = copyConstruct destroy pool src) := by
  have hset : setIdentifierAndRetain pool tr.identifier
      = .ok (⟨tr.identifier⟩, pool.setNode tr.identifier n.retain) := by
    have hn1 : pool.node tr.identifier = some n := hn
    simp [setIdentifierAndRetain, TreeReference.node, hn1]
  have hassign : ∀ self : TreeReference,
      setTo destroy pool self tr
        = .ok (⟨tr.identifier⟩,
            if self.isDefined pool then destroy (pool.setNode tr.identifier n.retain) self
            else pool.setNode tr.identifier n.retain) := by
    intro self
    unfold setTo
    rw [if_pos hdef, hset]
    by_cases hs : self.isDefined pool = true
    · simp only [hs, if_true]
      rfl
    · simp only [hs, if_false]
      rfl
  have hundef : (⟨pool.NoNodeIdentifier⟩ : TreeReference).isDefined pool = false := by
    simp [isDefined]
  have hctor := hassign ⟨pool.NoNodeIdentifier⟩
  simp only [hundef, Bool.false_eq_true, if_false] at hctor
  refine ⟨hctor, hctor, ?_, ?_, ?_, fun _ => rfl⟩
  · simp [TreePool.retainCountOf, setNode_node_self, TreeNode.retain]
  · have hn1 : pool.node tr.identifier = some n := hn
    simp [TreePool.retainCountOf, hn1]
  · intro self
    exact ⟨hassign self, rfl⟩

/-- Witness for the amended C2 at the reference to node 1 of the example pool. -/
theorem move_overloads_retain_like_copy_witness :
    moveConstruct Example.releaseUnit Example.pool ⟨1⟩
      = .ok (⟨1⟩, Example.pool.setNode 1 (TreeNode.retain ⟨1, 1, 0, false⟩)) ∧
    (Example.pool.setNode 1 (TreeNode.retain ⟨1, 1, 0, false⟩)).retainCountOf 1
      = some (1 + 1) :=
  ⟨(move_overloads_retain_like_copy Example.releaseUnit Example.pool ⟨1⟩ ⟨1, 1, 0, false⟩
      (by decide) (by decide)).2.1,
    (move_overloads_retain_like_copy Example.releaseUnit Example.pool ⟨1⟩ ⟨1, 1, 0, false⟩
      (by decide) (by decide)).2.2.1⟩

end Poincare

/-! ## Properties of `StorageExpressionModelStore` -/

namespace Shared

namespace StorageExpressionModelStore

variable {Record : Type}

theorem translateBody_first (ops : ModelInterface Record) (k d : Int)
    (st : StorageExpressionModelStore Record) (i : Int) :
    (translateBody ops k d st i).m_firstMemoizedModelIndex = st.m_firstMemoizedModelIndex := by
  unfold translateBody
  simp only []
  split <;> rfl

theorem translateBody_checksum (ops : ModelInterface Record) (k d : Int)
    (st : StorageExpressionModelStore Record) (i : Int) :
    (translateBody ops k d st i).m_storageChecksum = st.m_storageChecksum := by
  unfold translateBody
  simp only []
  split <;> rfl

theorem translateBody_slot_other (ops : ModelInterface Record) (k d : Int)
    (st : StorageExpressionModelStore Record) (i j : Int) (h : j ≠ i) :
    (translateBody ops k d st i).memoizedModelAtIndex j = st.memoizedModelAtIndex j := by
  unfold translateBody
  simp only []
  split <;> simp [moveMemoizedModel, setMemoizedModelAtIndex, h]

theorem foldl_translateBody_invariant (ops : ModelInterface Record) (k d : Int) (l : List Nat)
    (st : StorageExpressionModelStore Record) :
    let st1 := l.foldl (fun s (n : Nat) => translateBody ops k d s (n : Int)) st
    st1.m_firstMemoizedModelIndex = st.m_firstMemoizedModelIndex ∧
    st1.m_storageChecksum = st.m_storageChecksum ∧
    ∀ j : Int, (∀ n ∈ l, j ≠ (n : Int)) →
      st1.memoizedModelAtIndex j = st.memoizedModelAtIndex j := by
  induction l generalizing st with
  | nil => simp
  | cons a l ih =>
    simp only [List.foldl_cons]
    obtain ⟨h1, h2, h3⟩ := ih (translateBody ops k d st (a : Int))
    refine ⟨h1.trans (translateBody_first ..), h2.trans (translateBody_checksum ..), ?_⟩
    intro j hj
    rw [h3 j (fun n hn => hj n (List.mem_cons_of_mem _ hn))]
    exact translateBody_slot_other ops k d st a j (hj a (List.mem_cons_self _ _))

theorem translateLoop_first (ops : ModelInterface Record) (k d : Int)
    (st : StorageExpressionModelStore Record) :
    (translateLoop ops k d st).m_firstMemoizedModelIndex = st.m_firstMemoizedModelIndex :=
  (foldl_translateBody_invariant ops k d _ st).1

theorem translateLoop_checksum (ops : ModelInterface Record) (k d : Int)
    (st : StorageExpressionModelStore Record) :
    (translateLoop ops k d st).m_storageChecksum = st.m_storageChecksum :=
  (foldl_translateBody_invariant ops k d _ st).2.1

/-- The translation loop stops one slot short: it never writes slot `k - 1`. -/
theorem translateLoop_last_slot (ops : ModelInterface Record) (k d : Int)
    (st : StorageExpressionModelStore Record) :
    (translateLoop ops k d st).memoizedModelAtIndex (k - 1) = st.memoizedModelAtIndex (k - 1) := by
  apply (foldl_translateBody_invariant ops k d _ st).2.2
  intro n hn
  rw [List.mem_range] at hn
  omega

theorem translate_checksum (ops : ModelInterface Record) (k : Int)
    (st : StorageExpressionModelStore Record) (i : Int) :
    (translate ops k st i).m_storageChecksum = st.m_storageChecksum := by
  unfold translate
  split
  · exact translateLoop_checksum ..
  · rfl

theorem translate_last_slot (ops : ModelInterface Record) (k : Int)
    (st : StorageExpressionModelStore Record) (i : Int) :
    (translate ops k st i).memoizedModelAtIndex (k - 1) = st.memoizedModelAtIndex (k - 1) := by
  unfold translate
  split
  · exact translateLoop_last_slot ..
  · rfl

theorem translate_in_window (ops : ModelInterface Record) (k : Int)
    (st : StorageExpressionModelStore Record) (i : Int)
    (h1 : st.m_firstMemoizedModelIndex ≤ i) (h2 : i < st.m_firstMemoizedModelIndex + k) :
    translate ops k st i = st := by
  unfold translate
  rw [if_neg (by omega)]

theorem translate_first_above (ops : ModelInterface Record) (k : Int)
    (st : StorageExpressionModelStore Record) (i : Int)
    (h : i ≥ st.m_firstMemoizedModelIndex + k) :
    (translate ops k st i).m_firstMemoizedModelIndex = i - k + 1 := by
  unfold translate
  rw [if_pos (Or.inl h)]
  simp only [if_pos h, translateLoop_first]
  omega

theorem translate_first_below (ops : ModelInterface Record) (k : Int) (hk : 1 ≤ k)
    (st : StorageExpressionModelStore Record) (i : Int)
    (h : i < st.m_firstMemoizedModelIndex) :
    (translate ops k st i).m_firstMemoizedModelIndex = i := by
  unfold translate
  rw [if_pos (Or.inr h)]
  simp only [if_neg (show ¬ (i ≥ st.m_firstMemoizedModelIndex + k) by omega),
    translateLoop_first]
  omega

theorem translate_window (ops : ModelInterface Record) (k : Int) (hk : 1 ≤ k)
    (st : StorageExpressionModelStore Record) (i : Int) :
    (translate ops k st i).m_firstMemoizedModelIndex ≤ i ∧
    i < (translate ops k st i).m_firstMemoizedModelIndex + k := by
  by_cases h1 : i ≥ st.m_firstMemoizedModelIndex + k
  · rw [translate_first_above ops k st i h1]; omega
  · by_cases h2 : i < st.m_firstMemoizedModelIndex
    · rw [translate_first_below ops k hk st i h2]; omega
    · rw [translate_in_window ops k st i (by omega) (by omega)]; omega

theorem fetch_first (ops : ModelInterface Record) (sto : Storage Record)
    (st : StorageExpressionModelStore Record) (i : Int) :
    (fetch ops sto st i).2.m_firstMemoizedModelIndex = st.m_firstMemoizedModelIndex := by
  unfold fetch
  simp only []
  split <;> rfl

theorem modelAtIndex_eq_ok (ops : ModelInterface Record) (k : Int) (hk : 1 ≤ k)
    (sto : Storage Record) (st : StorageExpressionModelStore Record) (i : Int) :
    modelAtIndex ops k sto st i = .ok (fetch ops sto (translate ops k st i) i) := by
  unfold modelAtIndex
  simp only []
  rw [if_pos (by have := translate_window ops k hk st i; omega)]

/-- C8. For every `i`, every prior first index `f` and every `k >= 1`, the first index `f1`
left by the translation step of `modelAtIndex(i)` satisfies `f1 <= i < f1 + k`, so the
assertion holds, `modelAtIndex(i)` returns, and the slot index `i - f1` lies in `[0, k)`.
The window moves to the closest extremity: `f1 = f` when `f <= i < f + k`, `f1 = i - k + 1`
when `i >= f + k`, and `f1 = i` when `i < f`. -/
theorem translation_places_index_in_window (ops : ModelInterface Record) (k : Int)
    (sto : Storage Record) (st : StorageExpressionModelStore Record) (i : Int) (hk : 1 ≤ k) :
    (translate ops k st i).m_firstMemoizedModelIndex ≤ i ∧
    i < (translate ops k st i).m_firstMemoizedModelIndex + k ∧
    i - (translate ops k st i).m_firstMemoizedModelIndex < k ∧
    0 ≤ i - (translate ops k st i).m_firstMemoizedModelIndex ∧
    (∃ m st1, modelAtIndex ops k sto st i = .ok (m, st1) ∧
      st1.m_firstMemoizedModelIndex = (translate ops k st i).m_firstMemoizedModelIndex) ∧
    (st.m_firstMemoizedModelIndex ≤ i ∧ i < st.m_firstMemoizedModelIndex + k →
      (translate ops k st i).m_firstMemoizedModelIndex = st.m_firstMemoizedModelIndex) ∧
    (i ≥ st.m_firstMemoizedModelIndex + k →
      (translate ops k st i).m_firstMemoizedModelIndex = i - k + 1) ∧
    (i < st.m_firstMemoizedModelIndex →
      (translate ops k st i).m_firstMemoizedModelIndex = i) := by
  have hw := translate_window ops k hk st i
  refine ⟨hw.1, hw.2, by omega, by omega, ?_, ?_, ?_, ?_⟩
  · exact ⟨_, _, modelAtIndex_eq_ok ops k hk sto st i, fetch_first ..⟩
  · rintro ⟨h1, h2⟩
    rw [translate_in_window ops k st i h1 h2]
  · exact translate_first_above ops k st i
  · exact translate_first_below ops k hk st i

/-- Witness for C8 with `k = 10`: from the fresh store (first index 0), `modelAtIndex(25)`
leaves the first index at 16. -/
theorem translation_places_index_in_window_witness :
    (translate Example.ops 10 Example.freshStore 25).m_firstMemoizedModelIndex = 25 - 10 + 1 :=
  (translation_places_index_in_window Example.ops 10 (Example.storage 1 3 0) Example.freshStore
    25 (by decide)).2.2.2.2.2.2.1 (by decide)

theorem fetch_checksum (ops : ModelInterface Record) (sto : Storage Record)
    (st : StorageExpressionModelStore Record) (i : Int) :
    (fetch ops sto st i).2.m_storageChecksum = sto.checksum := by
  unfold fetch
  simp only []
  split
  · rfl
  · next h =>
    simp only [Bool.or_eq_true, bne_iff_ne, ne_eq, not_or, Decidable.not_not] at h
    exact h.2.symm

theorem fetch_cached (ops : ModelInterface Record) (sto : Storage Record)
    (st : StorageExpressionModelStore Record) (i : Int)
    (hnn : ops.isNull (st.memoizedModelAtIndex (i - st.m_firstMemoizedModelIndex)) = false)
    (hcs : st.m_storageChecksum = sto.checksum) :
    fetch ops sto st i = (st.memoizedModelAtIndex (i - st.m_firstMemoizedModelIndex), st) := by
  unfold fetch
  simp [hnn, hcs]

theorem fetch_rebuilt (ops : ModelInterface Record) (sto : Storage Record)
    (st : StorageExpressionModelStore Record) (i : Int)
    (h : ops.isNull (st.memoizedModelAtIndex (i - st.m_firstMemoizedModelIndex)) = true ∨
      st.m_storageChecksum ≠ sto.checksum) :
    fetch ops sto st i =
      (⟨sto.recordWithExtensionAtIndex i⟩,
        { st.setMemoizedModelAtIndex (i - st.m_firstMemoizedModelIndex)
            (sto.recordWithExtensionAtIndex i) with m_storageChecksum := sto.checksum }) := by
  have hc : (ops.isNull (st.memoizedModelAtIndex (i - st.m_firstMemoizedModelIndex))
      || sto.checksum != st.m_storageChecksum) = true := by
    rcases h with h | h
    · simp [h]
    · simp only [Bool.or_eq_true, bne_iff_ne, ne_eq]
      exact Or.inr (fun e => h e.symm)
  unfold fetch
  simp only [hc, if_true]
  simp [setMemoizedModelAtIndex]

/-- What a call leaves behind: the checksum of the storage, the slot of `i` holding the model
that is returned, every other slot untouched by the fetch, and a returned null model only if
it is the model of the record at `i`. -/
theorem fetch_post (ops : ModelInterface Record) (sto : Storage Record)
    (st : StorageExpressionModelStore Record) (i : Int) :
    (fetch ops sto st i).2.memoizedModelAtIndex (i - st.m_firstMemoizedModelIndex)
      = (fetch ops sto st i).1 ∧
    (∀ j, j ≠ i - st.m_firstMemoizedModelIndex →
      (fetch ops sto st i).2.memoizedModelAtIndex j = st.memoizedModelAtIndex j) ∧
    (ops.isNull (fetch ops sto st i).1 = true →
      (fetch ops sto st i).1 = ⟨sto.recordWithExtensionAtIndex i⟩) := by
  by_cases hnn : ops.isNull (st.memoizedModelAtIndex (i - st.m_firstMemoizedModelIndex)) = true
  · rw [fetch_rebuilt ops sto st i (Or.inl hnn)]
    refine ⟨by simp [setMemoizedModelAtIndex], ?_, fun _ => rfl⟩
    intro j hj
    simp [setMemoizedModelAtIndex, hj]
  · by_cases hcs : st.m_storageChecksum = sto.checksum
    · rw [fetch_cached ops sto st i (by simpa using hnn) hcs]
      exact ⟨rfl, fun _ _ => rfl, fun h => absurd h hnn⟩
    · rw [fetch_rebuilt ops sto st i (Or.inr hcs)]
      refine ⟨by simp [setMemoizedModelAtIndex], ?_, fun _ => rfl⟩
      intro j hj
      simp [setMemoizedModelAtIndex, hj]

/-- A call for an index at or above the end of the window, made while the last slot holds a
non-null model and the checksum is current, returns the content of that last slot. -/
theorem fetch_translate_above (ops : ModelInterface Record) (k : Int) (sto : Storage Record)
    (st : StorageExpressionModelStore Record) (i : Int)
    (habove : i ≥ st.m_firstMemoizedModelIndex + k)
    (hcs : st.m_storageChecksum = sto.checksum)
    (hnn : ops.isNull (st.memoizedModelAtIndex (k - 1)) = false) :
    fetch ops sto (translate ops k st i) i
      = (st.memoizedModelAtIndex (k - 1), translate ops k st i) := by
  have hf := translate_first_above ops k st i habove
  have hslot : i - (translate ops k st i).m_firstMemoizedModelIndex = k - 1 := by omega
  have hl := translate_last_slot ops k st i
  rw [fetch_cached ops sto _ i (by rw [hslot, hl]; exact hnn)
    ((translate_checksum ops k st i).trans hcs), hslot, hl]

/-- C6, the defect.  Let `i` be at or beyond the last index of the memoization window.  If
`modelAtIndex(i)` returns a non-null model `m`, then, the storage being unchanged, the next
call `modelAtIndex(i + 1)` returns `m` again, the model of index `i`, whatever the record at
`i + 1` is: the translation loop stops at `k - 2` and leaves the last slot as it was. -/
theorem modelAtIndex_repeats_last_slot_after_translation (ops : ModelInterface Record)
    (k : Int) (sto : Storage Record) (st : StorageExpressionModelStore Record) (i : Int)
    (m : StorageExpressionModel Record) (s1 : StorageExpressionModelStore Record)
    (hk : 1 ≤ k) (hi : i ≥ st.m_firstMemoizedModelIndex + k - 1)
    (hcall : modelAtIndex ops k sto st i = .ok (m, s1))
    (hnn : ops.isNull m = false) :
    ∃ s2, modelAtIndex ops k sto s1 (i + 1) = .ok (m, s2) := by
  rw [modelAtIndex_eq_ok ops k hk] at hcall
  have hms : fetch ops sto (translate ops k st i) i = (m, s1) := Except.ok.inj hcall
  have hf1 : s1.m_firstMemoizedModelIndex = i - k + 1 := by
    have h1 := fetch_first ops sto (translate ops k st i) i
    rw [hms] at h1
    rw [h1]
    by_cases ha : i ≥ st.m_firstMemoizedModelIndex + k
    · exact translate_first_above ops k st i ha
    · rw [translate_in_window ops k st i (by omega) (by omega)]; omega
  have hslot : s1.memoizedModelAtIndex (k - 1) = m := by
    have h1 := (fetch_post ops sto (translate ops k st i) i).1
    rw [hms] at h1
    have h2 : (translate ops k st i).m_firstMemoizedModelIndex = i - k + 1 := by
      have h3 := fetch_first ops sto (translate ops k st i) i
      rw [hms] at h3
      rw [← h3]; exact hf1
    rw [h2] at h1
    have h4 : i - (i - k + 1) = k - 1 := by omega
    rw [h4] at h1
    exact h1
  have hcs : s1.m_storageChecksum = sto.checksum := by
    have h1 := fetch_checksum ops sto (translate ops k st i) i
    rw [hms] at h1
    exact h1
  refine ⟨translate ops k s1 (i + 1), ?_⟩
  rw [modelAtIndex_eq_ok ops k hk,
    fetch_translate_above ops k sto s1 (i + 1) (by omega) hcs (by rw [hslot]; exact hnn), hslot]

/-- Witness for the defect of C6 with ten slots, on a storage with twelve records and a store
that memoized indices 0 to 8: `modelAtIndex(9)` returns the model of record 9, and
`modelAtIndex(10)` then returns the model of record 9 as well, not that of record 10. -/
theorem modelAtIndex_repeats_last_slot_after_translation_witness :
    (∃ s2, modelAtIndex Example.ops 10 Example.storageTwelve
        (fetch Example.ops Example.storageTwelve Example.filledStore 9).2 (9 + 1)
        = .ok (⟨some 9⟩, s2)) ∧
    Example.storageTwelve.recordWithExtensionAtIndex (9 + 1) = some 10 :=
  ⟨modelAtIndex_repeats_last_slot_after_translation Example.ops 10 Example.storageTwelve
      Example.filledStore 9 ⟨some 9⟩
      (fetch Example.ops Example.storageTwelve Example.filledStore 9).2
      (by decide) (by decide) (by rfl) (by rfl),
    by decide⟩

/-- C7, the defect.  Let `i` and `j` be two distinct indices of the memoization window and
let the slot of `i` hold a non-null model.  After a call `modelAtIndex(j)`, the call
`modelAtIndex(i)` returns the model that was memoized for `i`, whatever the checksum and the
records of the storage are at the time of the two calls: the single `m_storageChecksum` is
brought up to date by the call for `j`. -/
theorem modelAtIndex_keeps_stale_model_after_other_index (ops : ModelInterface Record)
    (k : Int) (sto : Storage Record) (st : StorageExpressionModelStore Record) (i j : Int)
    (hi : st.m_firstMemoizedModelIndex ≤ i ∧ i < st.m_firstMemoizedModelIndex + k)
    (hj : st.m_firstMemoizedModelIndex ≤ j ∧ j < st.m_firstMemoizedModelIndex + k)
    (hij : i ≠ j)
    (hnn : ops.isNull (st.memoizedModelAtIndex (i - st.m_firstMemoizedModelIndex)) = false) :
    ∃ mj s1 s2, modelAtIndex ops k sto st j = .ok (mj, s1) ∧
      modelAtIndex ops k sto s1 i
        = .ok (st.memoizedModelAtIndex (i - st.m_firstMemoizedModelIndex), s2) := by
  have hk : 1 ≤ k := by omega
  have hf := fetch_first ops sto st j
  have hc := fetch_checksum ops sto st j
  have hp := (fetch_post ops sto st j).2.1 (i - st.m_firstMemoizedModelIndex) (by omega)
  refine ⟨(fetch ops sto st j).1, (fetch ops sto st j).2, (fetch ops sto st j).2, ?_, ?_⟩
  · rw [modelAtIndex_eq_ok ops k hk, translate_in_window ops k st j hj.1 hj.2]
  · rw [modelAtIndex_eq_ok ops k hk,
      translate_in_window ops k _ i (by rw [hf]; exact hi.1) (by rw [hf]; exact hi.2),
      fetch_cached ops sto _ i (by rw [hf, hp]; exact hnn) hc, hf, hp]

/-- Witness for the defect of C7 with ten slots: indices 0 and 1 were memoized on
`storageBefore` (handles 0 and 1); on `storageAfter` (another checksum, handles 100 and 101)
the call for index 0 followed by the call for index 1 returns the model of handle 1. -/
theorem modelAtIndex_keeps_stale_model_after_other_index_witness :
    (∃ mj s1 s2, modelAtIndex Example.ops 10 Example.storageAfter Example.memoizedStore 0
        = .ok (mj, s1) ∧
      modelAtIndex Example.ops 10 Example.storageAfter s1 1
        = .ok (Example.memoizedStore.memoizedModelAtIndex
            (1 - Example.memoizedStore.m_firstMemoizedModelIndex), s2)) ∧
    Example.memoizedStore.memoizedModelAtIndex
        (1 - Example.memoizedStore.m_firstMemoizedModelIndex) = ⟨some 1⟩ ∧
    Example.storageAfter.recordWithExtensionAtIndex 1 = some 101 ∧
    Example.memoizedStore.m_storageChecksum ≠ Example.storageAfter.checksum :=
  ⟨modelAtIndex_keeps_stale_model_after_other_index Example.ops 10 Example.storageAfter
      Example.memoizedStore 1 0 (by decide) (by decide) (by decide) (by rfl),
    by rfl, by decide, by decide⟩

theorem scan_eq_run (ops : ModelInterface Record) (k : Int) (hk : 1 ≤ k) (sto : Storage Record)
    (st : StorageExpressionModelStore Record) (j : Nat) :
    scan ops k sto st j = .ok (run ops k sto st j) := by
  induction j with
  | zero => exact modelAtIndex_eq_ok ops k hk sto st 0
  | succ j ih =>
    show (scan ops k sto st j >>= fun p => modelAtIndex ops k sto p.2 ((j : Int) + 1)) = _
    rw [ih]
    exact modelAtIndex_eq_ok ops k hk sto _ _

theorem fetch_translate_cached (ops : ModelInterface Record) (k : Int) (sto : Storage Record)
    (s : StorageExpressionModelStore Record) (i : Int)
    (h1 : s.m_firstMemoizedModelIndex ≤ i) (h2 : i < s.m_firstMemoizedModelIndex + k)
    (hnn : ops.isNull (s.memoizedModelAtIndex (i - s.m_firstMemoizedModelIndex)) = false)
    (hcs : s.m_storageChecksum = sto.checksum) :
    fetch ops sto (translate ops k s i) i
      = (s.memoizedModelAtIndex (i - s.m_firstMemoizedModelIndex), s) := by
  rw [translate_in_window ops k s i h1 h2, fetch_cached ops sto s i hnn hcs]

/-- Once a scan has reached the last slot with a non-null model there, every later call of
the scan returns a non-null model. -/
theorem run_stuck (ops : ModelInterface Record) (k : Int) (sto : Storage Record)
    (st : StorageExpressionModelStore Record) (j : Nat)
    (hcs : (run ops k sto st j).2.m_storageChecksum = sto.checksum)
    (hf : (run ops k sto st j).2.m_firstMemoizedModelIndex + k - 1 = (j : Int))
    (hnn : ops.isNull ((run ops k sto st j).2.memoizedModelAtIndex (k - 1)) = false)
    (d : Nat) :
    ops.isNull (run ops k sto st (j + d + 1)).1 = false ∧
    (run ops k sto st (j + d + 1)).2.m_storageChecksum = sto.checksum ∧
    (run ops k sto st (j + d + 1)).2.m_firstMemoizedModelIndex + k - 1 = ((j + d + 1 : Nat) : Int) ∧
    ops.isNull ((run ops k sto st (j + d + 1)).2.memoizedModelAtIndex (k - 1)) = false := by
  have step : ∀ l : Nat,
      (run ops k sto st l).2.m_storageChecksum = sto.checksum →
      (run ops k sto st l).2.m_firstMemoizedModelIndex + k - 1 = (l : Int) →
      ops.isNull ((run ops k sto st l).2.memoizedModelAtIndex (k - 1)) = false →
      ops.isNull (run ops k sto st (l + 1)).1 = false ∧
      (run ops k sto st (l + 1)).2.m_storageChecksum = sto.checksum ∧
      (run ops k sto st (l + 1)).2.m_firstMemoizedModelIndex + k - 1 = ((l + 1 : Nat) : Int) ∧
      ops.isNull ((run ops k sto st (l + 1)).2.memoizedModelAtIndex (k - 1)) = false := by
    intro l h1 h2 h3
    have hr : run ops k sto st (l + 1)
        = ((run ops k sto st l).2.memoizedModelAtIndex (k - 1),
            translate ops k (run ops k sto st l).2 ((l : Int) + 1)) := by
      show fetch ops sto (translate ops k (run ops k sto st l).2 ((l : Int) + 1)) ((l : Int) + 1)
        = _
      exact fetch_translate_above ops k sto _ _ (by omega) h1 h3
    rw [hr]
    refine ⟨h3, (translate_checksum ..).trans h1, ?_, ?_⟩
    · rw [translate_first_above ops k _ _ (by omega)]
      push_cast
      omega
    · rw [translate_last_slot]
      exact h3
  induction d with
  | zero => exact step j hcs hf hnn
  | succ d ih => exact step (j + d + 1) ih.2.1 ih.2.2.1 ih.2.2.2

/-- In a scan that ends on a null model at index `n`, no call after the first one moves the
window, the checksum is current, and the slots keep the models returned so far. -/
theorem run_first_scan (ops : ModelInterface Record) (k : Int) (hk : 1 ≤ k)
    (sto : Storage Record) (st : StorageExpressionModelStore Record) (n : Nat)
    (hlive : ∀ j, j < n → ops.isNull (run ops k sto st j).1 = false)
    (hend : ops.isNull (run ops k sto st n).1 = true) (j : Nat) (hj : j ≤ n) :
    (run ops k sto st j).2.m_firstMemoizedModelIndex
      = (run ops k sto st 0).2.m_firstMemoizedModelIndex ∧
    (run ops k sto st j).2.m_storageChecksum = sto.checksum ∧
    (run ops k sto st 0).2.m_firstMemoizedModelIndex ≤ 0 ∧
    (j : Int) < (run ops k sto st 0).2.m_firstMemoizedModelIndex + k ∧
    ∀ l : Nat, l ≤ j →
      (run ops k sto st j).2.memoizedModelAtIndex
          ((l : Int) - (run ops k sto st 0).2.m_firstMemoizedModelIndex)
        = (run ops k sto st l).1 := by
  have hw := translate_window ops k hk st 0
  have hf0 : (run ops k sto st 0).2.m_firstMemoizedModelIndex
      = (translate ops k st 0).m_firstMemoizedModelIndex := fetch_first ..
  induction j with
  | zero =>
    refine ⟨rfl, fetch_checksum .., by omega, by simpa [hf0] using hw.2, ?_⟩
    intro l hl
    have hl0 : l = 0 := by omega
    subst hl0
    rw [hf0]
    exact (fetch_post ops sto (translate ops k st 0) 0).1
  | succ j ih =>
    obtain ⟨h1, h2, h3, h4, h5⟩ := ih (by omega)
    have hwin : ((j : Int) + 1) < (run ops k sto st 0).2.m_firstMemoizedModelIndex + k := by
      by_contra hc
      have hstuck := run_stuck ops k sto st j h2 (by omega)
        (by
          have := h5 j le_rfl
          have e : (j : Int) - (run ops k sto st 0).2.m_firstMemoizedModelIndex = k - 1 := by
            omega
          rw [e] at this
          rw [this]
          exact hlive j (by omega)) (n - j - 1)
      have e : j + (n - j - 1) + 1 = n := by omega
      rw [e] at hstuck
      rw [hstuck.1] at hend
      exact Bool.noConfusion hend
    have hr : run ops k sto st (j + 1)
        = fetch ops sto (run ops k sto st j).2 ((j : Int) + 1) := by
      show fetch ops sto (translate ops k (run ops k sto st j).2 ((j : Int) + 1)) ((j : Int) + 1)
        = _
      rw [translate_in_window ops k _ _ (by omega) (by omega)]
    refine ⟨?_, ?_, h3, by push_cast; omega, ?_⟩
    · rw [hr, fetch_first, h1]
    · rw [hr]; exact fetch_checksum ..
    · intro l hl
      have hp := fetch_post ops sto (run ops k sto st j).2 ((j : Int) + 1)
      rw [h1] at hp
      by_cases hlj : l = j + 1
      · subst hlj
        rw [hr]
        push_cast
        exact hp.1
      · rw [hr, hp.2.1 _ (by omega)]
        exact h5 l (by omega)

/-- After a scan that ended on a null model at index `n`, a call for an index below `n`
returns the model the scan returned for it and leaves the store as it is. -/
theorem modelAtIndex_after_scan (ops : ModelInterface Record) (k : Int) (hk : 1 ≤ k)
    (sto : Storage Record) (st : StorageExpressionModelStore Record) (n : Nat)
    (hlive : ∀ j, j < n → ops.isNull (run ops k sto st j).1 = false)
    (hend : ops.isNull (run ops k sto st n).1 = true) (j : Nat) (hj : j < n) :
    modelAtIndex ops k sto (run ops k sto st n).2 (j : Int)
      = .ok ((run ops k sto st j).1, (run ops k sto st n).2) := by
  obtain ⟨h1, h2, h3, h4, h5⟩ := run_first_scan ops k hk sto st n hlive hend n le_rfl
  have hslot := h5 j (by omega)
  rw [← h1] at hslot
  rw [modelAtIndex_eq_ok ops k hk,
    fetch_translate_cached ops k sto _ _ (by omega) (by omega)
      (by rw [hslot]; exact hlive j hj) h2, hslot]

end StorageExpressionModelStore

section Counting

variable {Record : Type}

theorem definedBelow_zero (ops : ModelInterface Record)
    (M : Nat → StorageExpressionModel Record) : definedBelow ops M 0 = 0 := by
  simp [definedBelow]

theorem definedBelow_succ (ops : ModelInterface Record)
    (M : Nat → StorageExpressionModel Record) (c : Nat) :
    definedBelow ops M (c + 1)
      = definedBelow ops M c + (if ops.isDefined (M c) = true then 1 else 0) := by
  unfold definedBelow
  rw [List.range_succ, List.filter_append, List.length_append]
  by_cases h : ops.isDefined (M c) = true
  · simp [List.filter_cons, h]
  · simp [List.filter_cons, h]

theorem definedBelow_mono (ops : ModelInterface Record)
    (M : Nat → StorageExpressionModel Record) (c d : Nat) :
    definedBelow ops M c ≤ definedBelow ops M (c + d) := by
  induction d with
  | zero => exact le_rfl
  | succ d ih =>
    have h := definedBelow_succ ops M (c + d)
    have e : c + (d + 1) = c + d + 1 := by omega
    rw [e, h]
    split <;> omega

theorem definedBelow_nonneg (ops : ModelInterface Record)
    (M : Nat → StorageExpressionModel Record) (c : Nat) : 0 ≤ definedBelow ops M c := by
  unfold definedBelow
  exact Int.natCast_nonneg _

theorem definedBelow_congr (ops : ModelInterface Record)
    (M N : Nat → StorageExpressionModel Record) (c : Nat) (h : ∀ j, j < c → M j = N j) :
    definedBelow ops M c = definedBelow ops N c := by
  induction c with
  | zero => rw [definedBelow_zero, definedBelow_zero]
  | succ c ih =>
    rw [definedBelow_succ, definedBelow_succ, ih (fun j hj => h j (by omega)), h c (by omega)]

/-- Every rank below the number of defined models is the rank of a defined model. -/
theorem exists_defined_of_rank (ops : ModelInterface Record)
    (M : Nat → StorageExpressionModel Record) (n : Nat) (i : Int)
    (h0 : 0 ≤ i) (h1 : i < definedBelow ops M n) :
    ∃ c, c < n ∧ ops.isDefined (M c) = true ∧ definedBelow ops M c = i := by
  induction n with
  | zero => rw [definedBelow_zero] at h1; omega
  | succ n ih =>
    rw [definedBelow_succ] at h1
    by_cases hlt : i < definedBelow ops M n
    · obtain ⟨c, hc, hd, he⟩ := ih hlt
      exact ⟨c, by omega, hd, he⟩
    · by_cases hdef : ops.isDefined (M n) = true
      · rw [if_pos hdef] at h1
        exact ⟨n, by omega, hdef, by omega⟩
      · rw [if_neg hdef] at h1
        omega

/-- A rank is the rank of one defined model only. -/
theorem defined_of_rank_unique (ops : ModelInterface Record)
    (M : Nat → StorageExpressionModel Record) (c d : Nat)
    (hc : ops.isDefined (M c) = true) (hd : ops.isDefined (M d) = true)
    (h : definedBelow ops M c = definedBelow ops M d) : c = d := by
  have key : ∀ a b : Nat, a < b → ops.isDefined (M a) = true →
      definedBelow ops M a < definedBelow ops M b := by
    intro a b hab ha
    have h1 := definedBelow_succ ops M a
    rw [if_pos ha] at h1
    have h2 := definedBelow_mono ops M (a + 1) (b - (a + 1))
    have e : a + 1 + (b - (a + 1)) = b := by omega
    rw [e] at h2
    omega
  rcases Nat.lt_trichotomy c d with hlt | heq | hgt
  · have := key c d hlt hc; omega
  · exact heq
  · have := key d c hgt hd; omega

end Counting

namespace StorageExpressionModelStore

variable {Record : Type}

theorem numberOfDefinedModelsLoop_run (ops : ModelInterface Record) (k : Int) (hk : 1 ≤ k)
    (sto : Storage Record) (st : StorageExpressionModelStore Record) (n : Nat)
    (hlive : ∀ j, j < n → ops.isNull (run ops k sto st j).1 = false)
    (hend : ops.isNull (run ops k sto st n).1 = true) :
    ∀ (d fuel j : Nat) (result : Int), j + d = n → d < fuel →
      numberOfDefinedModelsLoop ops k sto fuel (run ops k sto st j).1 ((j : Int) + 1) result
          (run ops k sto st j).2
        = .ok (result + (definedBelow ops (fun l => (run ops k sto st l).1) n
            - definedBelow ops (fun l => (run ops k sto st l).1) j),
          (run ops k sto st n).2) := by
  intro d
  induction d with
  | zero =>
    intro fuel j result hjd hfuel
    have hjn : j = n := by omega
    subst hjn
    obtain ⟨fuel, rfl⟩ : ∃ f, fuel = f + 1 := ⟨fuel - 1, by omega⟩
    unfold numberOfDefinedModelsLoop
    rw [if_pos hend]
    simp
  | succ d ih =>
    intro fuel j result hjd hfuel
    obtain ⟨fuel, rfl⟩ : ∃ f, fuel = f + 1 := ⟨fuel - 1, by omega⟩
    have hnn := hlive j (by omega)
    have hcall : modelAtIndex ops k sto (run ops k sto st j).2 ((j : Int) + 1)
        = .ok (run ops k sto st (j + 1)) := modelAtIndex_eq_ok ops k hk sto _ _
    unfold numberOfDefinedModelsLoop
    rw [if_neg (by simp [hnn])]
    simp only [hcall]
    have hnext := ih fuel (j + 1)
      (if ops.isDefined (run ops k sto st j).1 = true then result + 1 else result)
      (by omega) (by omega)
    have hs := definedBelow_succ ops (fun l => (run ops k sto st l).1) j
    simp only [] at hs
    push_cast at hnext
    show numberOfDefinedModelsLoop ops k sto fuel (run ops k sto st (j + 1)).1
      ((j : Int) + 1 + 1)
      (if ops.isDefined (run ops k sto st j).1 = true then result + 1 else result)
      (run ops k sto st (j + 1)).2 = _
    rw [hnext, hs]
    congr 2
    split <;> omega

theorem definedModelAtIndexLoop_fixed (ops : ModelInterface Record) (k : Int)
    (sto : Storage Record) (t : StorageExpressionModelStore Record)
    (M : Nat → StorageExpressionModel Record) (n c : Nat) (i : Int)
    (hcalls : ∀ j, j < n → modelAtIndex ops k sto t (j : Int) = .ok (M j, t))
    (hlive : ∀ j, j < n → ops.isNull (M j) = false)
    (hcount : (n : Int) ≤ numberOfModels sto)
    (hc : c < n) (hdef : ops.isDefined (M c) = true) (hrank : definedBelow ops M c = i) :
    ∀ (d fuel j : Nat), j + d = c → d < fuel →
      definedModelAtIndexLoop ops k sto i fuel (M j) ((j : Int) + 1) (definedBelow ops M j) t
        = .ok (M c, t) := by
  intro d
  induction d with
  | zero =>
    intro fuel j hjd hfuel
    have hjc : j = c := by omega
    subst hjc
    obtain ⟨fuel, rfl⟩ : ∃ f, fuel = f + 1 := ⟨fuel - 1, by omega⟩
    unfold definedModelAtIndexLoop
    rw [if_neg (by simp [hlive j hc]), if_pos (by omega), if_pos hdef, if_pos hrank.symm]
  | succ d ih =>
    intro fuel j hjd hfuel
    obtain ⟨fuel, rfl⟩ : ∃ f, fuel = f + 1 := ⟨fuel - 1, by omega⟩
    have hcall : modelAtIndex ops k sto t ((j : Int) + 1) = .ok (M (j + 1), t) := by
      have := hcalls (j + 1) (by omega)
      push_cast at this
      exact this
    have hnext := ih fuel (j + 1) (by omega) (by omega)
    push_cast at hnext
    have hs := definedBelow_succ ops M j
    have hmono := definedBelow_mono ops M (j + 1) (c - (j + 1))
    have e : j + 1 + (c - (j + 1)) = c := by omega
    rw [e] at hmono
    unfold definedModelAtIndexLoop
    rw [if_neg (by simp [hlive j (by omega)]), if_pos (by omega)]
    by_cases hdj : ops.isDefined (M j) = true
    · rw [if_pos hdj] at hs
      rw [if_pos hdj, if_neg (by omega)]
      simp only [hcall]
      show definedModelAtIndexLoop ops k sto i fuel (M (j + 1)) ((j : Int) + 1 + 1)
        (definedBelow ops M j + 1) t = _
      rw [← hs]
      exact hnext
    · rw [if_neg hdj] at hs
      rw [if_neg hdj]
      simp only [hcall]
      show definedModelAtIndexLoop ops k sto i fuel (M (j + 1)) ((j : Int) + 1 + 1)
        (definedBelow ops M j) t = _
      have hs0 : definedBelow ops M (j + 1) = definedBelow ops M j := by omega
      rw [← hs0]
      exact hnext

/-- A scan of at most `k` indices that starts on a store with first index 0 and null slots
returns, for each index, the model of the record at that index. -/
theorem scan_of_fresh_store (ops : ModelInterface Record) (k : Int) (hk : 1 ≤ k)
    (sto : Storage Record) (st : StorageExpressionModelStore Record) (N : Nat)
    (hN : (N : Int) < k) (hfirst : st.m_firstMemoizedModelIndex = 0)
    (hslots : ∀ l : Nat, l ≤ N → ops.isNull (st.memoizedModelAtIndex (l : Int)) = true)
    (j : Nat) (hj : j ≤ N) :
    ∃ s, scan ops k sto st j = .ok (⟨sto.recordWithExtensionAtIndex (j : Int)⟩, s) := by
  have key : ∀ j : Nat, j ≤ N →
      (run ops k sto st j).1 = ⟨sto.recordWithExtensionAtIndex (j : Int)⟩ ∧
      (run ops k sto st j).2.m_firstMemoizedModelIndex = 0 ∧
      ∀ l : Nat, j < l → l ≤ N →
        (run ops k sto st j).2.memoizedModelAtIndex (l : Int) = st.memoizedModelAtIndex (l : Int) := by
    intro j
    induction j with
    | zero =>
      intro _
      have hr : run ops k sto st 0 = fetch ops sto st 0 := by
        show fetch ops sto (translate ops k st 0) 0 = _
        rw [translate_in_window ops k st 0 (by omega) (by omega)]
      have hnull : ops.isNull (st.memoizedModelAtIndex (0 - st.m_firstMemoizedModelIndex))
          = true := by
        have := hslots 0 (by omega)
        rw [hfirst]
        simpa using this
      rw [hr, fetch_rebuilt ops sto st 0 (Or.inl hnull)]
      refine ⟨rfl, hfirst, ?_⟩
      intro l hl _
      simp only [setMemoizedModelAtIndex, hfirst]
      rw [if_neg (by omega)]
    | succ j ih =>
      intro hj1
      obtain ⟨_, h2, h3⟩ := ih (by omega)
      have hr : run ops k sto st (j + 1)
          = fetch ops sto (run ops k sto st j).2 ((j : Int) + 1) := by
        show fetch ops sto (translate ops k (run ops k sto st j).2 ((j : Int) + 1))
          ((j : Int) + 1) = _
        rw [translate_in_window ops k _ _ (by omega) (by omega)]
      have hnull : ops.isNull ((run ops k sto st j).2.memoizedModelAtIndex
          ((j : Int) + 1 - (run ops k sto st j).2.m_firstMemoizedModelIndex)) = true := by
        have h4 := h3 (j + 1) (by omega) hj1
        have h5 := hslots (j + 1) hj1
        push_cast at h4 h5
        rw [h2, sub_zero, h4]
        exact h5
      rw [hr, fetch_rebuilt ops sto _ _ (Or.inl hnull)]
      refine ⟨by push_cast; rfl, h2, ?_⟩
      intro l hl hlN
      simp only [setMemoizedModelAtIndex, h2]
      rw [if_neg (by omega)]
      exact h3 l (by omega) hlN
  refine ⟨(run ops k sto st j).2, ?_⟩
  rw [scan_eq_run ops k hk, ← (key j hj).1]

/-- When no call of the scan returns a null model, the loop of `numberOfDefinedModels()`
uses up any fuel. -/
theorem numberOfDefinedModelsLoop_out_of_fuel (ops : ModelInterface Record) (k : Int)
    (hk : 1 ≤ k) (sto : Storage Record) (st : StorageExpressionModelStore Record)
    (hnever : ∀ l, ops.isNull (run ops k sto st l).1 = false) :
    ∀ (fuel j : Nat) (result : Int),
      numberOfDefinedModelsLoop ops k sto fuel (run ops k sto st j).1 ((j : Int) + 1) result
          (run ops k sto st j).2
        = .error .outOfFuel := by
  intro fuel
  induction fuel with
  | zero =>
    intro j result
    unfold numberOfDefinedModelsLoop
    rfl
  | succ fuel ih =>
    intro j result
    have hcall : modelAtIndex ops k sto (run ops k sto st j).2 ((j : Int) + 1)
        = .ok (run ops k sto st (j + 1)) := modelAtIndex_eq_ok ops k hk sto _ _
    have hnext := ih (j + 1)
      (if ops.isDefined (run ops k sto st j).1 = true then result + 1 else result)
    push_cast at hnext
    unfold numberOfDefinedModelsLoop
    rw [if_neg (by simp [hnever j])]
    simp only [hcall]
    exact hnext

/-- With three slots, on the fresh store and a storage holding three records, the scan of
`numberOfDefinedModels()` never meets a null model: the call for index 3 and every later one
return the model left in the last slot, and no amount of fuel lets the function return. -/
theorem numberOfDefinedModels_full_window_never_returns (fuel : Nat) :
    numberOfDefinedModels Example.ops 3 Example.storageBefore fuel Example.freshStore
      = .error .outOfFuel := by
  have hk : (1 : Int) ≤ 3 := by decide
  have hnever : ∀ l,
      Example.ops.isNull (run Example.ops 3 Example.storageBefore Example.freshStore l).1
        = false := by
    intro l
    by_cases hl : l ≤ 2
    · interval_cases l <;> rfl
    · have h := run_stuck Example.ops 3 Example.storageBefore Example.freshStore 2
        (by rfl) (by rfl) (by rfl) (l - 3)
      have e : 2 + (l - 3) + 1 = l := by omega
      rw [e] at h
      exact h.1
  have h0 : modelAtIndex Example.ops 3 Example.storageBefore Example.freshStore 0
      = .ok (run Example.ops 3 Example.storageBefore Example.freshStore 0) :=
    modelAtIndex_eq_ok Example.ops 3 hk _ _ 0
  have hloop := numberOfDefinedModelsLoop_out_of_fuel Example.ops 3 hk Example.storageBefore
    Example.freshStore hnever fuel 0 0
  unfold numberOfDefinedModels
  simp only [h0]
  exact hloop

/-- The counting that the two loops perform when the cache does not get in the way.  Let
`M 0`, `M 1`, ... be the models that the calls `modelAtIndex(0)`, `modelAtIndex(1)`, ... of
a scan of the store return; suppose that the scan meets a null model, first at index `n`,
and that these `n` models are within `numberOfModels()`.  Given fuel for `n + 1` loop tests,
`numberOfDefinedModels()` returns the number of defined models among `M 0`, ...,
`M (n - 1)`; and for every `i` with `0 <= i` below that number, `definedModelAtIndex(i)`
returns the model `M c` at the only index `c < n` such that `M c` is defined and exactly `i`
models below `c` are defined.  Neither supposition holds in every reachable state. -/
theorem definedModels_counted_and_found_by_rank (ops : ModelInterface Record) (k : Int)
    (sto : Storage Record) (st : StorageExpressionModelStore Record) (n : Nat)
    (M : Nat → StorageExpressionModel Record) (fuel : Nat)
    (hk : 1 ≤ k)
    (hM : ∀ j, j ≤ n → ∃ s, scan ops k sto st j = .ok (M j, s))
    (hlive : ∀ j, j < n → ops.isNull (M j) = false)
    (hend : ops.isNull (M n) = true)
    (hcount : (n : Int) ≤ numberOfModels sto)
    (hfuel : n < fuel) :
    (∃ s, numberOfDefinedModels ops k sto fuel st = .ok (definedBelow ops M n, s)) ∧
    ∀ i : Int, 0 ≤ i → i < definedBelow ops M n →
      ∃ c, c < n ∧ ops.isDefined (M c) = true ∧ definedBelow ops M c = i ∧
        (∃ s, definedModelAtIndex ops k sto fuel st i = .ok (M c, s)) ∧
        ∀ c1, c1 < n → ops.isDefined (M c1) = true → definedBelow ops M c1 = i → c1 = c := by
  have hMrun : ∀ j, j ≤ n → (run ops k sto st j).1 = M j := by
    intro j hj
    obtain ⟨s, hs⟩ := hM j hj
    rw [scan_eq_run ops k hk] at hs
    have := Except.ok.inj hs
    rw [this]
  have hlive1 : ∀ j, j < n → ops.isNull (run ops k sto st j).1 = false := by
    intro j hj
    rw [hMrun j (by omega)]
    exact hlive j hj
  have hend1 : ops.isNull (run ops k sto st n).1 = true := by
    rw [hMrun n le_rfl]
    exact hend
  have hdb : ∀ c, c ≤ n →
      definedBelow ops (fun l => (run ops k sto st l).1) c = definedBelow ops M c := by
    intro c hc
    exact definedBelow_congr ops _ M c (fun j hj => hMrun j (by omega))
  have hnum : numberOfDefinedModels ops k sto fuel st
      = .ok (definedBelow ops M n, (run ops k sto st n).2) := by
    have h0 : modelAtIndex ops k sto st 0 = .ok (run ops k sto st 0) :=
      modelAtIndex_eq_ok ops k hk sto st 0
    have hloop := numberOfDefinedModelsLoop_run ops k hk sto st n hlive1 hend1 n fuel 0 0
      (by omega) hfuel
    rw [hdb n le_rfl, hdb 0 (by omega), definedBelow_zero] at hloop
    unfold numberOfDefinedModels
    simp only [h0]
    show numberOfDefinedModelsLoop ops k sto fuel (run ops k sto st 0).1 1 0
      (run ops k sto st 0).2 = _
    have e : ((0 : Nat) : Int) + 1 = 1 := by norm_num
    rw [e] at hloop
    rw [hloop]
    congr 2
    omega
  refine ⟨⟨_, hnum⟩, ?_⟩
  intro i hi0 hi1
  obtain ⟨c, hc, hdef, hrank⟩ := exists_defined_of_rank ops M n i hi0 hi1
  refine ⟨c, hc, hdef, hrank, ?_, ?_⟩
  · have hcalls : ∀ j, j < n → modelAtIndex ops k sto (run ops k sto st n).2 (j : Int)
        = .ok (M j, (run ops k sto st n).2) := by
      intro j hj
      rw [modelAtIndex_after_scan ops k hk sto st n hlive1 hend1 j hj, hMrun j (by omega)]
    have hloop := definedModelAtIndexLoop_fixed ops k sto (run ops k sto st n).2 M n c i hcalls
      hlive hcount hc hdef hrank c fuel 0 (by omega) (by omega)
    rw [definedBelow_zero] at hloop
    have e : ((0 : Nat) : Int) + 1 = 1 := by norm_num
    rw [e] at hloop
    have h0 := hcalls 0 (by omega)
    have e0 : ((0 : Nat) : Int) = 0 := by norm_num
    rw [e0] at h0
    refine ⟨(run ops k sto st n).2, ?_⟩
    unfold definedModelAtIndex
    rw [if_pos hi0]
    simp only [hnum]
    show (if i < definedBelow ops M n then
        (modelAtIndex ops k sto (run ops k sto st n).2 0 >>= fun p =>
          definedModelAtIndexLoop ops k sto i fuel p.1 1 0 p.2)
      else Except.error Failure.assertion) = _
    rw [if_pos hi1, h0]
    exact hloop
  · intro c1 _ hd1 hr1
    exact defined_of_rank_unique ops M c1 c hd1 hdef (hr1.trans hrank.symm)

/-- An instance of the counting with ten slots: on the fresh store and a storage with the
three records 0, 1 and 2 (those with an even handle are defined) the scan ends at index 3,
two models are defined, and the defined model of rank 1 is the one at index 2. -/
theorem definedModels_counted_and_found_by_rank_witness :
    (∃ s, numberOfDefinedModels Example.ops 10 Example.storageBefore 4 Example.freshStore
      = .ok (2, s)) ∧
    (∃ c, c < 3 ∧ definedBelow Example.ops Example.modelsBefore c = 1 ∧
      ∃ s, definedModelAtIndex Example.ops 10 Example.storageBefore 4 Example.freshStore 1
        = .ok (Example.modelsBefore c, s)) :=
  (fun h =>
    ⟨h.1, (fun ⟨c, hc, _, hr, hs, _⟩ => ⟨c, hc, hr, hs⟩) (h.2 1 (by decide) (by decide))⟩)
    (definedModels_counted_and_found_by_rank Example.ops 10 Example.storageBefore
      Example.freshStore 3 Example.modelsBefore 4 (by decide)
      (fun j hj => by
        interval_cases j
        · exact ⟨_, rfl⟩
        · exact ⟨_, rfl⟩
        · exact ⟨_, rfl⟩
        · exact ⟨_, rfl⟩)
      (fun j hj => by interval_cases j <;> rfl)
      (by rfl) (by decide) (by decide))

/-- C9, the defect.  Two inputs on which the code does not do what C9 states.
First, with ten slots: the store counted the two defined records of a storage, then the
second record was removed.  `numberOfModels()` is 1, yet `numberOfDefinedModels()` returns 2
(the model of the removed record is still memoized in slot 1, the defect of C7), and
`definedModelAtIndex(1)`, whose precondition `0 <= 1 < 2` holds, stops at the assertion
`currentModelIndex <= numberOfModels()` of line 66 instead of returning a model, whatever
fuel of at least three loop tests it is given.
Second, with three slots on the fresh store and a storage of three records:
`numberOfDefinedModels()` never returns, whatever the fuel (the last slot is not translated,
the defect of C6, so no call of the scan returns a null model). -/
theorem definedModels_miscounted_on_stale_or_full_cache :
    (∀ fuel : Nat, ∃ s,
      numberOfDefinedModels Example.ops 10 Example.storageOneDefined (fuel + 3)
        Example.storeAfterCount = .ok (2, s)) ∧
    numberOfModels Example.storageOneDefined = 1 ∧
    Example.storageOneDefined.recordWithExtensionAtIndex 1 = none ∧
    (∀ fuel : Nat,
      definedModelAtIndex Example.ops 10 Example.storageOneDefined (fuel + 3)
        Example.storeAfterCount 1 = .error .assertion) ∧
    (∀ fuel : Nat,
      numberOfDefinedModels Example.ops 3 Example.storageBefore fuel Example.freshStore
        = .error .outOfFuel) :=
  ⟨fun _ => ⟨_, rfl⟩, by decide, by decide, fun _ => rfl,
    numberOfDefinedModels_full_window_never_returns⟩

end StorageExpressionModelStore

end Shared
